import Mathlib

/-!
Verification of the `copyem` remote-copy utility against its design
specification.

The development shallowly embeds the pure cores of the Python sources:

* `src/copyem/core.py` — `schedule_files` (two-pointer greedy scheduler),
  embedded in namespace `Copyem.Core`;
* `src/copyem/__init__.py` — the second, textually identical copy of
  `schedule_files` (namespace `Copyem.Init`), the round-robin lane
  partition from `main`, and `parse_size_to_bytes` (textually identical to
  the copy in `utils.py`);
* `src/copyem/logger.py` — `LogManager.parse_mbuffer_status` (namespace
  `Copyem.Logger`);
* `src/copyem/utils.py` — `parse_size_to_bytes` (namespace `Copyem.Utils`).

Python `float` arithmetic is modelled by exact rational arithmetic (`ℚ`);
machine floats, `inf`/`nan` literals and float overflow are outside the
model.  Python exceptions are modelled by `Option`/`Except`: a `none` /
`.error` result marks the program point where the Python code raises.
Python's stable `list.sort(key=...)` is modelled by `List.insertionSort`
(also a stable sort), which agrees with every stable sort on the same key.
-/

namespace Copyem.Core

/-- One entry of the `file_sizes` list: `(path, size)` with `size` the byte
count reported by `stat`/`du` (a nonnegative integer). -/
abbrev FileEntry := String × ℕ

/-- The inner `while small_ptr <= big_ptr and buffer_time > latency` loop of
`schedule_files` (`core.py` lines 183–190).  `fs` is the size-sorted list the
two pointers index into; `small` is `small_ptr`, `big` is `big_ptr` (a Python
`int` that may reach `-1`, hence `ℤ`), `res` the emission list, and `eta`,
`bt` the running `eta` and `buffer_time` accumulators; `bmd` is
`buffer_max_delay`.  Returns the final `(small_ptr, res, eta)`.  The
out-of-range default of `getD` is never read: inside the loop
`small ≤ big < fs.length`. -/
def innerLoop (fs : List FileEntry) (tx bmd lat : ℚ) (small : ℕ) (big : ℤ)
    (res : List FileEntry) (eta bt : ℚ) : ℕ × List FileEntry × ℚ :=
  if _h : (small : ℤ) ≤ big ∧ lat < bt then
    match fs.getD small ("", 0) with
    | (small_file, small_size) =>
      let small_time : ℚ := (small_size : ℚ) / tx
      innerLoop fs tx bmd lat (small + 1) big (res ++ [(small_file, small_size)])
        (eta + small_time) (min (bt + small_time - lat) bmd)
  else (small, res, eta)
termination_by (big + 1 - small).toNat
decreasing_by omega

/-- The outer `while small_ptr <= big_ptr` loop of `schedule_files`
(`core.py` lines 171–190): emit the file at `big_ptr`, decrement `big_ptr`,
charge `big_time + latency` to `eta`, seed `buffer_time` and run the inner
loop, then repeat. -/
def outerLoop (fs : List FileEntry) (tx bmd lat : ℚ) (small : ℕ) (big : ℤ)
    (res : List FileEntry) (eta : ℚ) : List FileEntry × ℚ :=
  if _h : (small : ℤ) ≤ big then
    match fs.getD big.toNat ("", 0) with
    | (big_file, big_size) =>
      let big_time : ℚ := (big_size : ℚ) / tx
      match innerLoop fs tx bmd lat small (big - 1) (res ++ [(big_file, big_size)])
        (eta + big_time + lat) (min big_time bmd) with
      | (small2, res2, eta2) => outerLoop fs tx bmd lat small2 (big - 1) res2 eta2
  else (res, eta)
termination_by (big + 1).toNat
decreasing_by omega

/-- The ascending stable sort `file_sizes.sort(key=lambda x: x[1])`
(`core.py` line 161). -/
def sortedEntries (file_sizes : List FileEntry) : List FileEntry :=
  file_sizes.insertionSort (fun a b => a.2 ≤ b.2)

/-- `schedule_files(file_sizes, tx_speed, buffer_size, latency)` from
`core.py` lines 147–195.  The final statement
`estimated_speed = total_size / eta / 1024 / 1024` (whose value is unused)
raises `ZeroDivisionError` whenever `eta == 0.0`; that exceptional exit is
modelled by `none`.  `tx_speed > 0` is assumed by the callers (validated
upstream per the spec), so the `ℚ` divisions by `tx_speed` are faithful. -/
def schedule_files (file_sizes : List FileEntry) (tx_speed buffer_size : ℕ)
    (latency : ℚ) : Option (List String × ℚ) :=
  let sorted := sortedEntries file_sizes
  let buffer_max_delay : ℚ := (buffer_size : ℚ) / (tx_speed : ℚ)
  match outerLoop sorted (tx_speed : ℚ) buffer_max_delay latency 0
    ((sorted.length : ℤ) - 1) [] 0 with
  | (res, eta) => if eta = 0 then none else some (res.map Prod.fst, eta)

/-- Clone of `outerLoop` that additionally counts the number of outer-loop
("big-file") emission steps; used to state the ETA decomposition.  Its first
component coincides with `outerLoop` (`outerLoopK_fst`). -/
def outerLoopK (fs : List FileEntry) (tx bmd lat : ℚ) (small : ℕ) (big : ℤ)
    (res : List FileEntry) (eta : ℚ) (k : ℕ) : (List FileEntry × ℚ) × ℕ :=
  if _h : (small : ℤ) ≤ big then
    match fs.getD big.toNat ("", 0) with
    | (big_file, big_size) =>
      let big_time : ℚ := (big_size : ℚ) / tx
      match innerLoop fs tx bmd lat small (big - 1) (res ++ [(big_file, big_size)])
        (eta + big_time + lat) (min big_time bmd) with
      | (small2, res2, eta2) => outerLoopK fs tx bmd lat small2 (big - 1) res2 eta2 (k + 1)
  else ((res, eta), k)
termination_by (big + 1).toNat
decreasing_by omega

/-- Number of outer-loop (big-file) emission steps `schedule_files` performs
on the given input. -/
def bigSteps (file_sizes : List FileEntry) (tx_speed buffer_size : ℕ)
    (latency : ℚ) : ℕ :=
  let sorted := sortedEntries file_sizes
  (outerLoopK sorted (tx_speed : ℚ) ((buffer_size : ℚ) / (tx_speed : ℚ)) latency 0
    ((sorted.length : ℤ) - 1) [] 0 0).2

/-- Total byte size of a list of entries (`sum(s[1] for s in file_sizes)`). -/
def sizeSum (l : List FileEntry) : ℕ := (l.map Prod.snd).sum

/-! Unfolding equations for the well-founded loops, as rewrite rules. -/

theorem innerLoop_pos (fs : List FileEntry) (tx bmd lat : ℚ) (small : ℕ) (big : ℤ)
    (res : List FileEntry) (eta bt : ℚ) (h1 : (small : ℤ) ≤ big) (h2 : lat < bt) :
    innerLoop fs tx bmd lat small big res eta bt =
      innerLoop fs tx bmd lat (small + 1) big (res ++ [fs.getD small ("", 0)])
        (eta + ((fs.getD small ("", 0)).2 : ℚ) / tx)
        (min (bt + ((fs.getD small ("", 0)).2 : ℚ) / tx - lat) bmd) := by
  rw [innerLoop, dif_pos ⟨h1, h2⟩]

theorem innerLoop_neg (fs : List FileEntry) (tx bmd lat : ℚ) (small : ℕ) (big : ℤ)
    (res : List FileEntry) (eta bt : ℚ) (h : ¬((small : ℤ) ≤ big ∧ lat < bt)) :
    innerLoop fs tx bmd lat small big res eta bt = (small, res, eta) := by
  rw [innerLoop, dif_neg h]

theorem outerLoop_pos (fs : List FileEntry) (tx bmd lat : ℚ) (small : ℕ) (big : ℤ)
    (res : List FileEntry) (eta : ℚ) (h : (small : ℤ) ≤ big) :
    outerLoop fs tx bmd lat small big res eta =
      outerLoop fs tx bmd lat
        (innerLoop fs tx bmd lat small (big - 1) (res ++ [fs.getD big.toNat ("", 0)])
          (eta + ((fs.getD big.toNat ("", 0)).2 : ℚ) / tx + lat)
          (min (((fs.getD big.toNat ("", 0)).2 : ℚ) / tx) bmd)).1 (big - 1)
        (innerLoop fs tx bmd lat small (big - 1) (res ++ [fs.getD big.toNat ("", 0)])
          (eta + ((fs.getD big.toNat ("", 0)).2 : ℚ) / tx + lat)
          (min (((fs.getD big.toNat ("", 0)).2 : ℚ) / tx) bmd)).2.1
        (innerLoop fs tx bmd lat small (big - 1) (res ++ [fs.getD big.toNat ("", 0)])
          (eta + ((fs.getD big.toNat ("", 0)).2 : ℚ) / tx + lat)
          (min (((fs.getD big.toNat ("", 0)).2 : ℚ) / tx) bmd)).2.2 := by
  rw [outerLoop, dif_pos h]

theorem outerLoop_neg (fs : List FileEntry) (tx bmd lat : ℚ) (small : ℕ) (big : ℤ)
    (res : List FileEntry) (eta : ℚ) (h : ¬((small : ℤ) ≤ big)) :
    outerLoop fs tx bmd lat small big res eta = (res, eta) := by
  rw [outerLoop, dif_neg h]

theorem outerLoopK_pos (fs : List FileEntry) (tx bmd lat : ℚ) (small : ℕ) (big : ℤ)
    (res : List FileEntry) (eta : ℚ) (k : ℕ) (h : (small : ℤ) ≤ big) :
    outerLoopK fs tx bmd lat small big res eta k =
      outerLoopK fs tx bmd lat
        (innerLoop fs tx bmd lat small (big - 1) (res ++ [fs.getD big.toNat ("", 0)])
          (eta + ((fs.getD big.toNat ("", 0)).2 : ℚ) / tx + lat)
          (min (((fs.getD big.toNat ("", 0)).2 : ℚ) / tx) bmd)).1 (big - 1)
        (innerLoop fs tx bmd lat small (big - 1) (res ++ [fs.getD big.toNat ("", 0)])
          (eta + ((fs.getD big.toNat ("", 0)).2 : ℚ) / tx + lat)
          (min (((fs.getD big.toNat ("", 0)).2 : ℚ) / tx) bmd)).2.1
        (innerLoop fs tx bmd lat small (big - 1) (res ++ [fs.getD big.toNat ("", 0)])
          (eta + ((fs.getD big.toNat ("", 0)).2 : ℚ) / tx + lat)
          (min (((fs.getD big.toNat ("", 0)).2 : ℚ) / tx) bmd)).2.2 (k + 1) := by
  rw [outerLoopK, dif_pos h]

theorem outerLoopK_neg (fs : List FileEntry) (tx bmd lat : ℚ) (small : ℕ) (big : ℤ)
    (res : List FileEntry) (eta : ℚ) (k : ℕ) (h : ¬((small : ℤ) ≤ big)) :
    outerLoopK fs tx bmd lat small big res eta k = ((res, eta), k) := by
  rw [outerLoopK, dif_neg h]

/-- The instrumented loop computes the same result as `outerLoop`. -/
theorem outerLoopK_fst (fs : List FileEntry) (tx bmd lat : ℚ) :
    ∀ (small : ℕ) (big : ℤ) (res : List FileEntry) (eta : ℚ) (k : ℕ),
      (outerLoopK fs tx bmd lat small big res eta k).1 =
        outerLoop fs tx bmd lat small big res eta := by
  intro small big res eta k
  induction small, big, res, eta, k using outerLoopK.induct fs tx bmd lat with
  | case1 small big res eta k h bf bs heq bt2 s2 r2 e2 heq2 ih =>
    unfold bt2 at heq2
    rw [outerLoopK_pos fs tx bmd lat small big res eta k h,
      outerLoop_pos fs tx bmd lat small big res eta h, heq, heq2]
    exact ih
  | case2 small big res eta k h =>
    rw [outerLoopK_neg fs tx bmd lat small big res eta k h,
      outerLoop_neg fs tx bmd lat small big res eta h]

/-! The half-open index segment `fs[a:e]` that the two pointers walk over,
and its basic algebra.  Inside the loops the not-yet-emitted entries are
exactly `seg fs small_ptr (big_ptr + 1)`. -/

/-- The slice `l[a:e]` (half-open, Python slice notation). -/
def seg (l : List FileEntry) (a e : ℕ) : List FileEntry := (l.drop a).take (e - a)

theorem getD_eq_getElem {α : Type} (l : List α) (a : ℕ) (d : α)
    (h : a < l.length) : l.getD a d = l[a] := by
  simp [List.getD_eq_getElem?_getD, List.getElem?_eq_getElem h]

theorem seg_eq_nil (l : List FileEntry) (a e : ℕ) (h : e ≤ a) : seg l a e = [] := by
  simp [seg, Nat.sub_eq_zero_of_le h]

theorem seg_zero_length (l : List FileEntry) : seg l 0 l.length = l := by
  simp [seg]

theorem seg_cons (l : List FileEntry) (a e : ℕ) (ha : a < l.length) (hae : a < e) :
    seg l a e = l.getD a ("", 0) :: seg l (a + 1) e := by
  have h2 : e - a = (e - (a + 1)) + 1 := by omega
  rw [seg, List.drop_eq_getElem_cons ha, h2, List.take_succ_cons,
    getD_eq_getElem l a ("", 0) ha, seg]

theorem seg_snoc (l : List FileEntry) (a e : ℕ) (he : e < l.length) (hae : a ≤ e) :
    seg l a (e + 1) = seg l a e ++ [l.getD e ("", 0)] := by
  have h2 : e + 1 - a = (e - a) + 1 := by omega
  rw [seg, h2, List.take_succ, seg, List.getElem?_drop]
  have h3 : a + (e - a) = e := by omega
  rw [h3, List.getElem?_eq_getElem he, getD_eq_getElem l e ("", 0) he]
  rfl

theorem seg_split (l : List FileEntry) (a b e : ℕ) (hab : a ≤ b) (hbe : b ≤ e) :
    seg l a e = seg l a b ++ seg l b e := by
  have h2 : e - a = (b - a) + (e - b) := by omega
  rw [seg, h2, List.take_add, seg, seg, List.drop_drop]
  have h3 : a + (b - a) = b := by omega
  rw [h3]

theorem seg_length_le (l : List FileEntry) (a e : ℕ) :
    (seg l a e).length ≤ e - a := by
  simp [seg]

theorem sizeSum_cons (x : FileEntry) (l : List FileEntry) :
    sizeSum (x :: l) = x.2 + sizeSum l := by
  simp [sizeSum]

theorem sizeSum_append (l₁ l₂ : List FileEntry) :
    sizeSum (l₁ ++ l₂) = sizeSum l₁ + sizeSum l₂ := by
  simp [sizeSum]

/-- Invariant of the inner loop: writing `(s', r', e')` for its result, the
loop only advances the small pointer (staying within the segment), appends
exactly the slice `fs[small:s']` to `res`, and adds the transmit times of
those entries to `eta`. -/
theorem innerLoop_inv (fs : List FileEntry) (tx bmd lat : ℚ) :
    ∀ (small : ℕ) (big : ℤ) (res : List FileEntry) (eta bt : ℚ),
      big < fs.length →
      small ≤ (innerLoop fs tx bmd lat small big res eta bt).1 ∧
      ((small : ℤ) ≤ big + 1 →
        ((innerLoop fs tx bmd lat small big res eta bt).1 : ℤ) ≤ big + 1) ∧
      (innerLoop fs tx bmd lat small big res eta bt).2.1 =
        res ++ seg fs small (innerLoop fs tx bmd lat small big res eta bt).1 ∧
      (innerLoop fs tx bmd lat small big res eta bt).2.2 =
        eta + (sizeSum (seg fs small (innerLoop fs tx bmd lat small big res eta bt).1) : ℚ) / tx := by
  intro small big res eta bt
  induction small, big, res, eta, bt using innerLoop.induct fs tx bmd lat with
  | case1 small big res eta bt h sf ss heq st ih =>
    intro hbig
    unfold st at ih
    have hsmall : small < fs.length := by
      have h1 := h.1; omega
    rw [innerLoop_pos fs tx bmd lat small big res eta bt h.1 h.2, heq]
    dsimp only
    obtain ⟨ih1, ih2, ih3, ih4⟩ := ih hbig
    have hs' : small < (innerLoop fs tx bmd lat (small + 1) big (res ++ [(sf, ss)])
        (eta + (ss : ℚ) / tx) (min (bt + (ss : ℚ) / tx - lat) bmd)).1 := by omega
    have hseg := seg_cons fs small _ hsmall hs'
    rw [heq] at hseg
    refine ⟨by omega, ?_, ?_, ?_⟩
    · intro _
      have h1 := h.1
      have := ih2 (by push_cast; omega)
      omega
    · rw [ih3, hseg]
      simp
    · rw [ih4, hseg, sizeSum_cons]
      push_cast
      ring
  | case2 small big res eta bt h =>
    intro _
    rw [innerLoop_neg fs tx bmd lat small big res eta bt h]
    refine ⟨le_refl _, fun h2 => h2, ?_, ?_⟩
    · rw [seg_eq_nil fs small small (le_refl _)]
      simp
    · rw [seg_eq_nil fs small small (le_refl _)]
      simp [sizeSum]

/-- Invariant of the (instrumented) outer loop: writing `((r', e'), k')` for
its result and working on the remaining slice `fs[small:big+1]`, the loop
appends a permutation of that slice to `res`, adds one transmit time per
emitted entry plus one latency charge per outer step to `eta`, and performs
at least one and at most `slice length` outer steps. -/
theorem outerLoopK_inv (fs : List FileEntry) (tx bmd lat : ℚ) :
    ∀ (small : ℕ) (big : ℤ) (res : List FileEntry) (eta : ℚ) (k : ℕ),
      big < fs.length → (small : ℤ) ≤ big + 1 →
      (outerLoopK fs tx bmd lat small big res eta k).1.1.Perm
        (res ++ seg fs small (big + 1).toNat) ∧
      (outerLoopK fs tx bmd lat small big res eta k).1.2 =
        eta + (sizeSum (seg fs small (big + 1).toNat) : ℚ) / tx
            + lat * (((outerLoopK fs tx bmd lat small big res eta k).2 : ℚ) - (k : ℚ)) ∧
      k ≤ (outerLoopK fs tx bmd lat small big res eta k).2 ∧
      (outerLoopK fs tx bmd lat small big res eta k).2 - k ≤
        (seg fs small (big + 1).toNat).length ∧
      ((small : ℤ) ≤ big → k < (outerLoopK fs tx bmd lat small big res eta k).2) := by
  intro small big res eta k
  induction small, big, res, eta, k using outerLoopK.induct fs tx bmd lat with
  | case1 small big res eta k h bf bs heq bt2 s2 r2 e2 heq2 ih =>
    intro hbig _
    unfold bt2 at heq2 ih
    have hbigNat : big.toNat < fs.length := by omega
    have hbig1 : big - 1 < (fs.length : ℤ) := by omega
    have hsb1 : (small : ℤ) ≤ (big - 1) + 1 := by omega
    -- inner-loop facts for this iteration
    obtain ⟨hin1, hin2, hin3, hin4⟩ :=
      innerLoop_inv fs tx bmd lat small (big - 1) (res ++ [(bf, bs)])
        (eta + (bs : ℚ) / tx + lat) (min ((bs : ℚ) / tx) bmd) hbig1
    rw [heq2] at hin1 hin2 hin3 hin4
    dsimp only at hin1 hin2 hin3 hin4
    have hs2big : (s2 : ℤ) ≤ big := by
      have := hin2 hsb1; omega
    have hs2nat : s2 ≤ big.toNat := by omega
    -- induction hypothesis for the rest of the loop
    obtain ⟨ihPerm, ihEta, ihK1, ihK2, _⟩ := ih hbig1 (by omega)
    -- rewrite the goal to the recursive call
    rw [outerLoopK_pos fs tx bmd lat small big res eta k h, heq]
    dsimp only
    rw [heq2]
    dsimp only
    have hTail : big - 1 + 1 = big := by ring
    rw [hTail] at ihPerm ihEta ihK2
    -- segment algebra
    have hsnoc : seg fs small (big + 1).toNat =
        seg fs small big.toNat ++ [(bf, bs)] := by
      have h1 : (big + 1).toNat = big.toNat + 1 := by omega
      rw [h1, seg_snoc fs small big.toNat hbigNat (by omega), heq]
    have hsplit : seg fs small big.toNat =
        seg fs small s2 ++ seg fs s2 big.toNat :=
      seg_split fs small s2 big.toNat hin1 hs2nat
    refine ⟨?_, ?_, by omega, ?_, fun _ => by omega⟩
    · refine ihPerm.trans ?_
      rw [hin3, hsnoc, hsplit]
      have hmid : ([(bf, bs)] ++ (seg fs small s2 ++ seg fs s2 big.toNat)).Perm
          ((seg fs small s2 ++ seg fs s2 big.toNat) ++ [(bf, bs)]) :=
        List.perm_append_comm
      simpa [List.append_assoc] using hmid.append_left res
    · rw [ihEta, hin4, hsnoc, hsplit, sizeSum_append, sizeSum_append]
      have hbs : sizeSum [(bf, bs)] = bs := by simp [sizeSum]
      rw [hbs]
      push_cast
      ring
    · have hlen : (seg fs small (big + 1).toNat).length =
          (seg fs small s2).length + (seg fs s2 big.toNat).length + 1 := by
        rw [hsnoc, hsplit]; simp; omega
      omega
  | case2 small big res eta k h =>
    intro _ _
    rw [outerLoopK_neg fs tx bmd lat small big res eta k h]
    have hseg : seg fs small (big + 1).toNat = [] := by
      refine seg_eq_nil fs small (big + 1).toNat (by omega)
    rw [hseg]
    refine ⟨by simp, ?_, le_refl _, by simp, fun hc => absurd hc h⟩
    simp [sizeSum]

theorem perm_sortedEntries (fs : List FileEntry) : (sortedEntries fs).Perm fs :=
  List.perm_insertionSort _ fs

theorem sizeSum_of_perm {l₁ l₂ : List FileEntry} (h : l₁.Perm l₂) :
    sizeSum l₁ = sizeSum l₂ :=
  (h.map Prod.snd).sum_eq

/-- Central characterization of `schedule_files`: the emission list is a
permutation of the input and the accumulated ETA is the total transmit time
plus one latency charge per outer-loop step; the outer loop runs between `1`
(for non-empty input) and `length` times. -/
theorem schedule_files_char (fs : List FileEntry) (tx buf : ℕ) (lat : ℚ) :
    ∃ resE : List FileEntry,
      resE.Perm fs ∧
      outerLoop (sortedEntries fs) (tx : ℚ) ((buf : ℚ) / (tx : ℚ)) lat 0
          (((sortedEntries fs).length : ℤ) - 1) [] 0 =
        (resE, (sizeSum fs : ℚ) / (tx : ℚ) + lat * (bigSteps fs tx buf lat : ℚ)) ∧
      (fs ≠ [] → 1 ≤ bigSteps fs tx buf lat) ∧ bigSteps fs tx buf lat ≤ fs.length := by
  have hlen : (sortedEntries fs).length = fs.length :=
    (perm_sortedEntries fs).length_eq
  have hbig : (((sortedEntries fs).length : ℤ) - 1) < (sortedEntries fs).length := by
    omega
  have hsb : ((0 : ℕ) : ℤ) ≤ (((sortedEntries fs).length : ℤ) - 1) + 1 := by
    omega
  obtain ⟨hPerm, hEta, _, hK2, hK3⟩ :=
    outerLoopK_inv (sortedEntries fs) (tx : ℚ) ((buf : ℚ) / (tx : ℚ)) lat 0
      (((sortedEntries fs).length : ℤ) - 1) [] 0 0 hbig hsb
  have hseg : seg (sortedEntries fs) 0
      ((((sortedEntries fs).length : ℤ) - 1) + 1).toNat = sortedEntries fs := by
    have h1 : ((((sortedEntries fs).length : ℤ) - 1) + 1).toNat =
        (sortedEntries fs).length := by omega
    rw [h1, seg_zero_length]
  rw [hseg] at hPerm hEta hK2
  have hks : bigSteps fs tx buf lat =
      (outerLoopK (sortedEntries fs) (tx : ℚ) ((buf : ℚ) / (tx : ℚ)) lat 0
        (((sortedEntries fs).length : ℤ) - 1) [] 0 0).2 := rfl
  have hfst := outerLoopK_fst (sortedEntries fs) (tx : ℚ) ((buf : ℚ) / (tx : ℚ)) lat 0
    (((sortedEntries fs).length : ℤ) - 1) [] 0 0
  refine ⟨(outerLoopK (sortedEntries fs) (tx : ℚ) ((buf : ℚ) / (tx : ℚ)) lat 0
      (((sortedEntries fs).length : ℤ) - 1) [] 0 0).1.1, ?_, ?_, ?_, ?_⟩
  · simpa using hPerm.trans (perm_sortedEntries fs)
  · rw [← hfst]
    have hsz : sizeSum (sortedEntries fs) = sizeSum fs :=
      sizeSum_of_perm (perm_sortedEntries fs)
    rw [hsz] at hEta
    rw [← hks] at hEta
    rw [Prod.ext_iff]
    refine ⟨rfl, ?_⟩
    simpa using hEta
  · intro hfs
    have hne : fs.length ≠ 0 := by
      simpa [List.length_eq_zero] using hfs
    have := hK3 (by omega)
    rw [← hks] at this
    omega
  · rw [hks]
    have hl : (seg (sortedEntries fs) 0
        ((((sortedEntries fs).length : ℤ) - 1) + 1).toNat).length ≤ fs.length := by
      rw [hseg, hlen]
    omega

/-- On an empty input the scheduler's accumulated ETA is `0`, so the
(dead) `estimated_speed` division raises `ZeroDivisionError`: the model
returns `none`. -/
theorem schedule_files_nil (tx buf : ℕ) (lat : ℚ) :
    schedule_files [] tx buf lat = none := by
  obtain ⟨resE, hPerm, hOut, _, hK⟩ := schedule_files_char [] tx buf lat
  have hk0 : bigSteps [] tx buf lat = 0 := by simpa using hK
  have hres : resE = [] := by simpa using hPerm
  rw [schedule_files]
  rw [hOut, hres, hk0]
  simp [sizeSum]

/-- Whatever `schedule_files` returns, the returned order is a permutation
of the input paths (the emission loop never duplicates or drops entries). -/
theorem schedule_files_some_perm (fs : List FileEntry) (tx buf : ℕ) (lat : ℚ)
    {y : List String × ℚ}
    (h : schedule_files fs tx buf lat = some y) :
    (Prod.fst y).Perm (fs.map Prod.fst) := by
  obtain ⟨resE, hPerm, hOut, _, _⟩ := schedule_files_char fs tx buf lat
  rw [schedule_files, hOut] at h
  dsimp only at h
  by_cases h0 : (sizeSum fs : ℚ) / (tx : ℚ) +
      lat * (bigSteps fs tx buf lat : ℚ) = 0
  · rw [if_pos h0] at h
    exact absurd h (by simp)
  · rw [if_neg h0] at h
    have hy : y = (resE.map Prod.fst,
        (sizeSum fs : ℚ) / (tx : ℚ) + lat * (bigSteps fs tx buf lat : ℚ)) :=
      (Option.some.inj h).symm
    rw [hy]
    exact hPerm.map Prod.fst

/-- Whenever the accumulated ETA is provably nonzero (positive latency or
positive total size), `schedule_files` returns: the order is a permutation
of the input paths and the ETA is total transmit time plus one latency
charge per big-file emission step. -/
theorem schedule_files_some (fs : List FileEntry) (tx buf : ℕ) (lat : ℚ)
    (htx : 0 < tx) (hlat : 0 ≤ lat) (hfs : fs ≠ [])
    (hpos : 0 < lat ∨ 0 < sizeSum fs) :
    ∃ ord, schedule_files fs tx buf lat =
        some (ord, (sizeSum fs : ℚ) / (tx : ℚ) +
          lat * (bigSteps fs tx buf lat : ℚ)) ∧
      ord.Perm (fs.map Prod.fst) := by
  obtain ⟨resE, hPerm, hOut, hK1, _⟩ := schedule_files_char fs tx buf lat
  have hk1 : 1 ≤ bigSteps fs tx buf lat := hK1 hfs
  have htxQ : (0 : ℚ) < (tx : ℚ) := by exact_mod_cast htx
  have hdiv : (0 : ℚ) ≤ (sizeSum fs : ℚ) / (tx : ℚ) :=
    div_nonneg (by positivity) (le_of_lt htxQ)
  have hkQ : (1 : ℚ) ≤ (bigSteps fs tx buf lat : ℚ) := by exact_mod_cast hk1
  have heta : 0 < (sizeSum fs : ℚ) / (tx : ℚ) +
      lat * (bigSteps fs tx buf lat : ℚ) := by
    rcases hpos with hlat0 | hsz
    · have : lat * 1 ≤ lat * (bigSteps fs tx buf lat : ℚ) :=
        mul_le_mul_of_nonneg_left hkQ hlat
      nlinarith
    · have hszQ : (0 : ℚ) < (sizeSum fs : ℚ) := by exact_mod_cast hsz
      have : (0 : ℚ) < (sizeSum fs : ℚ) / (tx : ℚ) := div_pos hszQ htxQ
      nlinarith
  refine ⟨resE.map Prod.fst, ?_, hPerm.map Prod.fst⟩
  rw [schedule_files]
  rw [hOut]
  simp only [if_neg (ne_of_gt heta)]

end Copyem.Core

namespace Copyem.Init

open Copyem.Core (FileEntry)

/-- The inner loop of the second, textually identical copy of
`schedule_files` in `__init__.py` (lines 500–519). -/
def innerLoop (fs : List FileEntry) (tx bmd lat : ℚ) (small : ℕ) (big : ℤ)
    (res : List FileEntry) (eta bt : ℚ) : ℕ × List FileEntry × ℚ :=
  if _h : (small : ℤ) ≤ big ∧ lat < bt then
    match fs.getD small ("", 0) with
    | (small_file, small_size) =>
      let small_time : ℚ := (small_size : ℚ) / tx
      innerLoop fs tx bmd lat (small + 1) big (res ++ [(small_file, small_size)])
        (eta + small_time) (min (bt + small_time - lat) bmd)
  else (small, res, eta)
termination_by (big + 1 - small).toNat
decreasing_by omega

/-- The outer loop of the `__init__.py` copy of `schedule_files`. -/
def outerLoop (fs : List FileEntry) (tx bmd lat : ℚ) (small : ℕ) (big : ℤ)
    (res : List FileEntry) (eta : ℚ) : List FileEntry × ℚ :=
  if _h : (small : ℤ) ≤ big then
    match fs.getD big.toNat ("", 0) with
    | (big_file, big_size) =>
      let big_time : ℚ := (big_size : ℚ) / tx
      match innerLoop fs tx bmd lat small (big - 1) (res ++ [(big_file, big_size)])
        (eta + big_time + lat) (min big_time bmd) with
      | (small2, res2, eta2) => outerLoop fs tx bmd lat small2 (big - 1) res2 eta2
  else (res, eta)
termination_by (big + 1).toNat
decreasing_by omega

/-- The ascending stable sort `file_sizes.sort(key=lambda x: x[1])`
(`__init__.py` line 490). -/
def sortedEntries (file_sizes : List FileEntry) : List FileEntry :=
  file_sizes.insertionSort (fun a b => a.2 ≤ b.2)

/-- `schedule_files` from `__init__.py` lines 476–524 (textually identical
to the copy in `core.py`; embedded separately to settle the equivalence
claim). -/
def schedule_files (file_sizes : List FileEntry) (tx_speed buffer_size : ℕ)
    (latency : ℚ) : Option (List String × ℚ) :=
  let sorted := sortedEntries file_sizes
  let buffer_max_delay : ℚ := (buffer_size : ℚ) / (tx_speed : ℚ)
  match outerLoop sorted (tx_speed : ℚ) buffer_max_delay latency 0
    ((sorted.length : ℤ) - 1) [] 0 with
  | (res, eta) => if eta = 0 then none else some (res.map Prod.fst, eta)

theorem initInnerLoop_pos (fs : List FileEntry) (tx bmd lat : ℚ) (small : ℕ) (big : ℤ)
    (res : List FileEntry) (eta bt : ℚ) (h1 : (small : ℤ) ≤ big) (h2 : lat < bt) :
    innerLoop fs tx bmd lat small big res eta bt =
      innerLoop fs tx bmd lat (small + 1) big (res ++ [fs.getD small ("", 0)])
        (eta + ((fs.getD small ("", 0)).2 : ℚ) / tx)
        (min (bt + ((fs.getD small ("", 0)).2 : ℚ) / tx - lat) bmd) := by
  rw [innerLoop, dif_pos ⟨h1, h2⟩]

theorem initInnerLoop_neg (fs : List FileEntry) (tx bmd lat : ℚ) (small : ℕ) (big : ℤ)
    (res : List FileEntry) (eta bt : ℚ) (h : ¬((small : ℤ) ≤ big ∧ lat < bt)) :
    innerLoop fs tx bmd lat small big res eta bt = (small, res, eta) := by
  rw [innerLoop, dif_neg h]

theorem initOuterLoop_pos (fs : List FileEntry) (tx bmd lat : ℚ) (small : ℕ) (big : ℤ)
    (res : List FileEntry) (eta : ℚ) (h : (small : ℤ) ≤ big) :
    outerLoop fs tx bmd lat small big res eta =
      outerLoop fs tx bmd lat
        (innerLoop fs tx bmd lat small (big - 1) (res ++ [fs.getD big.toNat ("", 0)])
          (eta + ((fs.getD big.toNat ("", 0)).2 : ℚ) / tx + lat)
          (min (((fs.getD big.toNat ("", 0)).2 : ℚ) / tx) bmd)).1 (big - 1)
        (innerLoop fs tx bmd lat small (big - 1) (res ++ [fs.getD big.toNat ("", 0)])
          (eta + ((fs.getD big.toNat ("", 0)).2 : ℚ) / tx + lat)
          (min (((fs.getD big.toNat ("", 0)).2 : ℚ) / tx) bmd)).2.1
        (innerLoop fs tx bmd lat small (big - 1) (res ++ [fs.getD big.toNat ("", 0)])
          (eta + ((fs.getD big.toNat ("", 0)).2 : ℚ) / tx + lat)
          (min (((fs.getD big.toNat ("", 0)).2 : ℚ) / tx) bmd)).2.2 := by
  rw [outerLoop, dif_pos h]

theorem initOuterLoop_neg (fs : List FileEntry) (tx bmd lat : ℚ) (small : ℕ) (big : ℤ)
    (res : List FileEntry) (eta : ℚ) (h : ¬((small : ℤ) ≤ big)) :
    outerLoop fs tx bmd lat small big res eta = (res, eta) := by
  rw [outerLoop, dif_neg h]

/-- One `file_parts[i % args.parallel].append(f_)` step of the partition
loop in `main` (`__init__.py` line 594). -/
def rrStep (parallel : ℕ) (parts : List (List FileEntry)) (x : ℕ × FileEntry) :
    List (List FileEntry) :=
  parts.set (x.1 % parallel) (parts.getD (x.1 % parallel) [] ++ [x.2])

/-- The round-robin partition of the size-sorted file list into
`args.parallel` parts (`__init__.py` lines 591–594):
`file_parts = [[] for _ in range(args.parallel)]`, then append entry `i` of
the sorted list to `file_parts[i % args.parallel]`.  Faithful for
`parallel > 0`; with `parallel = 0` and a non-empty list Python raises
`ZeroDivisionError` on `i % 0` (no claim concerns that case). -/
def roundRobin (parallel : ℕ) (file_sizes : List FileEntry) :
    List (List FileEntry) :=
  (sortedEntries file_sizes).enum.foldl (rrStep parallel)
    (List.replicate parallel [])

/-- The per-lane scheduling loop of `main` (`__init__.py` lines 596–603):
`schedule_files(f, speed_bytes, buffer_bytes, args.latency)` for each part.
`none` models a `ZeroDivisionError` escaping from `schedule_files` on some
lane and aborting `main`. -/
def laneSchedules (parallel : ℕ) (file_sizes : List FileEntry)
    (tx_speed buffer_size : ℕ) (latency : ℚ) :
    Option (List (List String × ℚ)) :=
  (roundRobin parallel file_sizes).mapM
    (fun f => schedule_files f tx_speed buffer_size latency)

theorem length_foldl_rrStep (p : ℕ) :
    ∀ (l : List (ℕ × FileEntry)) (parts : List (List FileEntry)),
      (l.foldl (rrStep p) parts).length = parts.length := by
  intro l
  induction l with
  | nil => intro parts; rfl
  | cons x l ih =>
    intro parts
    rw [List.foldl_cons, ih]
    simp [rrStep]

theorem flatten_rrStep (p : ℕ) (parts : List (List FileEntry)) (x : ℕ × FileEntry)
    (hj : x.1 % p < parts.length) :
    (rrStep p parts x).flatten.Perm (parts.flatten ++ [x.2]) := by
  rw [rrStep]
  generalize x.1 % p = j at hj
  induction parts generalizing j with
  | nil => simp at hj
  | cons p0 rest ih =>
    cases j with
    | zero =>
      simp only [List.getD_cons_zero, List.set, List.flatten_cons]
      have hmid : ([x.2] ++ rest.flatten).Perm (rest.flatten ++ [x.2]) :=
        List.perm_append_comm
      simpa [List.append_assoc] using hmid.append_left p0
    | succ j =>
      simp only [List.getD_cons_succ, List.set, List.flatten_cons]
      have hj' : j < rest.length := by simpa using hj
      have := (ih j hj').append_left p0
      simpa [List.append_assoc] using this

theorem flatten_foldl_rrStep (p : ℕ) (hp : 0 < p) :
    ∀ (l : List (ℕ × FileEntry)) (parts : List (List FileEntry)),
      parts.length = p →
      ((l.foldl (rrStep p) parts).flatten).Perm (parts.flatten ++ l.map Prod.snd) := by
  intro l
  induction l with
  | nil => intro parts _; simp
  | cons x l ih =>
    intro parts hlen
    rw [List.foldl_cons]
    have hstep : (rrStep p parts x).flatten.Perm (parts.flatten ++ [x.2]) :=
      flatten_rrStep p parts x (by rw [hlen]; exact Nat.mod_lt _ hp)
    have hlen2 : (rrStep p parts x).length = p := by simp [rrStep, hlen]
    refine (ih (rrStep p parts x) hlen2).trans ?_
    have := hstep.append_right (l.map Prod.snd)
    simpa [List.append_assoc] using this

/-- Every file of the (sorted) input lands in exactly one lane: the
concatenation of the lanes is a permutation of the input list. -/
theorem flatten_roundRobin (p : ℕ) (hp : 0 < p) (fs : List FileEntry) :
    ((roundRobin p fs).flatten).Perm fs := by
  rw [roundRobin]
  have h1 := flatten_foldl_rrStep p hp (sortedEntries fs).enum
    (List.replicate p []) (by simp)
  have h2 : (List.replicate p ([] : List FileEntry)).flatten = [] := by
    simp
  rw [h2] at h1
  have h3 : (sortedEntries fs).enum.map Prod.snd = sortedEntries fs :=
    List.enumFrom_map_snd 0 (sortedEntries fs)
  rw [h3] at h1
  simpa using h1.trans (Copyem.Core.perm_sortedEntries fs)

theorem getD_rrStep_eq (p : ℕ) (parts : List (List FileEntry)) (x : ℕ × FileEntry)
    (j : ℕ) (hj : x.1 % p = j) (hlt : j < parts.length) :
    (rrStep p parts x).getD j [] = parts.getD j [] ++ [x.2] := by
  rw [rrStep, hj]
  simp [List.getD_eq_getElem?_getD, List.getElem?_set_self hlt]

theorem getD_rrStep_ne (p : ℕ) (parts : List (List FileEntry)) (x : ℕ × FileEntry)
    (j : ℕ) (hj : x.1 % p ≠ j) :
    (rrStep p parts x).getD j [] = parts.getD j [] := by
  rw [rrStep]
  simp [List.getD_eq_getElem?_getD, List.getElem?_set_ne hj]

theorem getD_foldl_rrStep (p : ℕ) (j : ℕ) (hjp : j < p) :
    ∀ (l : List (ℕ × FileEntry)) (parts : List (List FileEntry)),
      parts.length = p →
      (l.foldl (rrStep p) parts).getD j [] =
        parts.getD j [] ++ (l.filter (fun x => x.1 % p == j)).map Prod.snd := by
  intro l
  induction l with
  | nil => intro parts _; simp
  | cons x l ih =>
    intro parts hlen
    rw [List.foldl_cons]
    have hlen2 : (rrStep p parts x).length = p := by simp [rrStep, hlen]
    rw [ih (rrStep p parts x) hlen2]
    by_cases hx : x.1 % p = j
    · rw [getD_rrStep_eq p parts x j hx (by rw [hlen]; exact hjp)]
      simp [List.filter_cons, hx]
    · rw [getD_rrStep_ne p parts x j hx]
      simp [List.filter_cons, hx]

/-- When there are at least as many files as lanes, every lane receives at
least one file. -/
theorem initPerm_sortedEntries (fs : List FileEntry) : (sortedEntries fs).Perm fs :=
  List.perm_insertionSort _ fs

theorem roundRobin_getD_ne_nil (p : ℕ) (hp : 0 < p) (fs : List FileEntry)
    (hpn : p ≤ fs.length) (j : ℕ) (hj : j < p) :
    (roundRobin p fs).getD j [] ≠ [] := by
  rw [roundRobin, getD_foldl_rrStep p j hj _ (List.replicate p []) (by simp)]
  have hlen : j < (sortedEntries fs).length := by
    have := (initPerm_sortedEntries fs).length_eq
    omega
  have hlenE : j < (sortedEntries fs).enum.length := by
    rw [List.enum_eq_enumFrom, List.enumFrom_length]
    exact hlen
  have hmem : (sortedEntries fs).enum[j] ∈ (sortedEntries fs).enum :=
    List.getElem_mem hlenE
  have hfst : ((sortedEntries fs).enum[j]).1 = j := by
    simp [List.enum_eq_enumFrom]
  have hmemf : (sortedEntries fs).enum[j] ∈
      (sortedEntries fs).enum.filter (fun x => x.1 % p == j) := by
    refine List.mem_filter.mpr ⟨hmem, ?_⟩
    simp [hfst, Nat.mod_eq_of_lt hj]
  intro hcon
  have hnil : ((sortedEntries fs).enum.filter (fun x => x.1 % p == j)).map Prod.snd = [] := by
    simpa using hcon
  rw [List.map_eq_nil_iff] at hnil
  rw [hnil] at hmemf
  exact (List.not_mem_nil _) hmemf

end Copyem.Init

namespace Copyem.Py

/-- Python whitespace (`str.strip()` / regex `\s`), ASCII part.  Python also
treats some Unicode code points as whitespace; those are outside the
model. -/
def isSpace (c : Char) : Bool :=
  c = ' ' || c = '\t' || c = '\n' || c = '\r' || c = '\x0b' || c = '\x0c'

/-- Maximal-munch split: the longest prefix whose characters satisfy `f`,
and the rest of the string. -/
def takeWhileSplit (f : Char → Bool) : List Char → List Char × List Char
  | [] => ([], [])
  | c :: cs =>
    if f c then
      let t := takeWhileSplit f cs
      (c :: t.1, t.2)
    else ([], c :: cs)

/-- Numeric value of one decimal digit. -/
def digitVal (c : Char) : ℕ := c.toNat - '0'.toNat

/-- Numeric value of a decimal digit string. -/
def decimalVal (ds : List Char) : ℕ := ds.foldl (fun n c => n * 10 + digitVal c) 0

/-- Scale factor contributed by exponent digits `rr` with sign `sgn`; the
digits must be non-empty and must exhaust the string. -/
def expScale (sgn : ℤ) (rr : List Char) : Option ℚ :=
  let t := takeWhileSplit Char.isDigit rr
  if t.1.isEmpty || !t.2.isEmpty then none
  else some ((10 : ℚ) ^ (sgn * (decimalVal t.1 : ℤ)))

/-- The optional exponent suffix of a Python float literal: empty, or
`e`/`E` followed by an optional sign and digits.  Returns the scale
factor, or `none` when the remainder is not a wellformed exponent. -/
def expPart : List Char → Option ℚ
  | [] => some 1
  | c :: r =>
    if c = 'e' || c = 'E' then
      match r with
      | '+' :: rr => expScale 1 rr
      | '-' :: rr => expScale (-1) rr
      | rr => expScale 1 rr
    else none

/-- An optional leading `+`/`-` sign, as a multiplier and the rest. -/
def signSplit : List Char → ℚ × List Char
  | '+' :: r => (1, r)
  | '-' :: r => (-1, r)
  | r => (1, r)

/-- Python `float(s)` on decimal literals, in exact rational arithmetic:
optional surrounding whitespace, optional sign, integer and/or fractional
digits, optional exponent.  `none` models `float` raising `ValueError`
("could not convert string to float").  `inf`/`nan` literals,
digit-grouping underscores and IEEE-754 rounding are outside the model. -/
def pyFloat (s : List Char) : Option ℚ :=
  let t0 := ((s.dropWhile isSpace).reverse.dropWhile isSpace).reverse
  let sg := signSplit t0
  let ipt := takeWhileSplit Char.isDigit sg.2
  match ipt.2 with
  | '.' :: t3 =>
    let fpt := takeWhileSplit Char.isDigit t3
    if ipt.1.isEmpty && fpt.1.isEmpty then none
    else
      (expPart fpt.2).map (fun e =>
        sg.1 * ((decimalVal ipt.1 : ℚ) +
          (decimalVal fpt.1 : ℚ) / (10 : ℚ) ^ fpt.1.length) * e)
  | _ =>
    if ipt.1.isEmpty then none
    else (expPart ipt.2).map (fun e => sg.1 * (decimalVal ipt.1 : ℚ) * e)

end Copyem.Py

namespace Copyem.Utils

/-- `size_str.strip()` (ASCII whitespace). -/
def pyStrip (s : List Char) : List Char :=
  ((s.dropWhile Py.isSpace).reverse.dropWhile Py.isSpace).reverse

/-- `size_str.upper()`. -/
def pyUpper (s : List Char) : List Char := s.map Char.toUpper

/-- `sorted(units.keys(), key=len, reverse=True)`: Python's sort is stable
and the `units` dict keys iterate in insertion order
`B, K, KB, M, MB, G, GB, T, TB`, so the two-letter suffixes come first,
each length group keeping insertion order. -/
def unitSuffixes : List (List Char) :=
  [['K', 'B'], ['M', 'B'], ['G', 'B'], ['T', 'B'],
   ['B'], ['K'], ['M'], ['G'], ['T']]

/-- The `units` multiplier table of `parse_size_to_bytes`. -/
def unitMult : List Char → ℕ
  | ['B'] => 1
  | ['K'] => 1024
  | ['K', 'B'] => 1024
  | ['M'] => 1024 ^ 2
  | ['M', 'B'] => 1024 ^ 2
  | ['G'] => 1024 ^ 3
  | ['G', 'B'] => 1024 ^ 3
  | ['T'] => 1024 ^ 4
  | ['T', 'B'] => 1024 ^ 4
  | _ => 1

/-- The suffix search of `parse_size_to_bytes` (`utils.py` lines 26–38):
the first key, in `unitSuffixes` order, that the stripped upper-cased
string ends with, together with the numeric prefix
`size_str[:-len(suffix)]`; no match means unit `B` and the whole string as
numeric part. -/
def sizeSplit (s : List Char) : List Char × List Char :=
  match unitSuffixes.find? (fun u => u.isSuffixOf s) with
  | some u => (u, s.take (s.length - u.length))
  | none => (['B'], s)

/-- `parse_size_to_bytes` from `utils.py` lines 4–48 (the copy in
`__init__.py` lines 291–335 is textually identical).  Exceptional exits,
as `Except.error` with the Python message:

* empty stripped string — `"Size string cannot be empty"`;
* `float(num_str)` failing — its `ValueError` message contains
  `"could not convert"`, so the `except` clause re-raises
  `"Invalid size format: {size_str}"`;
* a negative number — the raised `"Size cannot be negative: {size_str}"`
  does not contain `"could not convert"` and is re-raised unchanged.

An empty numeric part defaults the number to `1`
(`float(num_str) if num_str else 1`).  `int(number * units[unit])`
truncates toward zero, which on the non-negative numbers reaching it is
the floor.  Python float `inf`/`nan` inputs (which raise
`OverflowError`/`ValueError` inside `int(...)`) are outside the `ℚ`
model. -/
def parse_size_to_bytes (size_str : String) : Except String ℤ :=
  let s := pyUpper (pyStrip size_str.data)
  if s.isEmpty then Except.error "Size string cannot be empty"
  else
    let t := sizeSplit s
    match (if t.2.isEmpty then some (1 : ℚ) else Py.pyFloat t.2) with
    | none => Except.error ("Invalid size format: " ++ String.mk s)
    | some q =>
      if q < 0 then Except.error ("Size cannot be negative: " ++ String.mk s)
      else Except.ok ⌊q * (unitMult t.1 : ℚ)⌋

/-- The numeric prefix of the (stripped, upper-cased) size string:
`num_str` in `parse_size_to_bytes`. -/
def numPart (s : String) : List Char := (sizeSplit (pyUpper (pyStrip s.data))).2

/-- The unit suffix chosen by `parse_size_to_bytes` (`"B"` when none). -/
def unitPart (s : String) : List Char := (sizeSplit (pyUpper (pyStrip s.data))).1

/-- `float(num_str) if num_str else 1`, as an optional rational. -/
def numValue (s : String) : Option ℚ :=
  if (numPart s).isEmpty then some (1 : ℚ) else Py.pyFloat (numPart s)

end Copyem.Utils

namespace Copyem.Logger

/-!
`LogManager.parse_mbuffer_status` (`logger.py` lines 63–99) matches the
status line against the regular expression (with `re.IGNORECASE`)

  `in\s+@\s+([\d.]+)\s+([kKmMgG]?)iB/s` `.*`
  `out\s+@\s+([\d.]+)\s+([kKmMgG]?)iB/s` `.*?`
  `([\d.]+)\s+([kKmMgG]?)iB\s+total` `.*` `buffer\s+(\d+)%`

via `re.search`.  The embedding is a recursive-descent matcher specialised
to this pattern, equal to the backtracking regex semantics:

* `re.search` tries start positions left to right (`scanSearch`);
* a greedy `.*` tries the furthest feasible position first and cannot cross
  a newline (`scanGreedy`); a lazy `.*?` tries the nearest position first
  (`scanLazy`); each scan takes the whole rest of the pattern as its
  continuation, so inter-section backtracking is exact;
* within a section, `[\d.]+`, `\s+` and `(\d+)` are maximal-munch without
  loss: each is followed by a pattern piece whose first character class is
  disjoint from its own (`\s` after `[\d.]+`, `[kKmMgG]?i` after `\s+`,
  `%` after `(\d+)`), so a shorter match always fails immediately, and
  `([kKmMgG]?)` is deterministic because the class letters are disjoint
  from the following `i`/`I`;
* `re.IGNORECASE` on the ASCII literals is lower-case comparison
  (`litCI`).
-/

/-- The character class `[\d.]` (ASCII digits; Python `\d` also matches
Unicode digits, outside the model). -/
def isDigitDot (c : Char) : Bool := c.isDigit || c = '.'

/-- The character class `[kKmMgG]`. -/
def isUnitLetter (c : Char) : Bool :=
  c = 'k' || c = 'K' || c = 'm' || c = 'M' || c = 'g' || c = 'G'

/-- Case-insensitive literal match (pattern given in lower case); returns
the rest of the input. -/
def litCI : List Char → List Char → Option (List Char)
  | [], s => some s
  | _ :: _, [] => none
  | pc :: pr, c :: cr => if c.toLower = pc.toLower then litCI pr cr else none

/-- `class+` (one or more, maximal munch): the matched run and the rest. -/
def plus1 (f : Char → Bool) (s : List Char) : Option (List Char × List Char) :=
  let t := Py.takeWhileSplit f s
  if t.1.isEmpty then none else some t

/-- `class?` (optional, greedy): the matched character, if any, and the
rest. -/
def optCls (f : Char → Bool) : List Char → Option Char × List Char
  | [] => (none, [])
  | c :: cs => if f c then (some c, cs) else (none, c :: cs)

/-- `re.search` position scan: leftmost start position whose continuation
succeeds. -/
def scanSearch {α : Type} (p : List Char → Option α) : List Char → Option α
  | [] => p []
  | c :: cs =>
    match p (c :: cs) with
    | some r => some r
    | none => scanSearch p cs

/-- Lazy `.*?`: nearest position first; `.` does not match a newline. -/
def scanLazy {α : Type} (p : List Char → Option α) : List Char → Option α
  | [] => p []
  | c :: cs =>
    match p (c :: cs) with
    | some r => some r
    | none => if c = '\n' then none else scanLazy p cs

/-- Greedy `.*`: furthest feasible position first; `.` does not match a
newline. -/
def scanGreedy {α : Type} (p : List Char → Option α) : List Char → Option α
  | [] => p []
  | c :: cs =>
    if c = '\n' then p (c :: cs)
    else
      match scanGreedy p cs with
      | some r => some r
      | none => p (c :: cs)

/-- `([\d.]+)\s+([kKmMgG]?)iB/s`: rate digits, unit letter, and the rest. -/
def rateUnit (s : List Char) : Option ((List Char × Option Char) × List Char) :=
  (plus1 isDigitDot s).bind fun t1 =>
  (plus1 Py.isSpace t1.2).bind fun t2 =>
  (fun u => (litCI ['i', 'b', '/', 's'] u.2).map fun t4 => ((t1.1, u.1), t4))
    (optCls isUnitLetter t2.2)

/-- `in\s+@\s+` followed by `rateUnit`. -/
def inSec (s : List Char) : Option ((List Char × Option Char) × List Char) :=
  (litCI ['i', 'n'] s).bind fun t1 =>
  (plus1 Py.isSpace t1).bind fun t2 =>
  (litCI ['@'] t2.2).bind fun t3 =>
  (plus1 Py.isSpace t3).bind fun t4 =>
  rateUnit t4.2

/-- `out\s+@\s+` followed by `rateUnit`. -/
def outSec (s : List Char) : Option ((List Char × Option Char) × List Char) :=
  (litCI ['o', 'u', 't'] s).bind fun t1 =>
  (plus1 Py.isSpace t1).bind fun t2 =>
  (litCI ['@'] t2.2).bind fun t3 =>
  (plus1 Py.isSpace t3).bind fun t4 =>
  rateUnit t4.2

/-- `([\d.]+)\s+([kKmMgG]?)iB\s+total`. -/
def totalSec (s : List Char) : Option ((List Char × Option Char) × List Char) :=
  (plus1 isDigitDot s).bind fun t1 =>
  (plus1 Py.isSpace t1.2).bind fun t2 =>
  (fun u =>
    (litCI ['i', 'b'] u.2).bind fun t3 =>
    (plus1 Py.isSpace t3).bind fun t4 =>
    (litCI ['t', 'o', 't', 'a', 'l'] t4.2).map fun t5 => ((t1.1, u.1), t5))
    (optCls isUnitLetter t2.2)

/-- `buffer\s+(\d+)%`: the percentage digits (the pattern ends at `%`). -/
def bufferSec (s : List Char) : Option (List Char) :=
  (litCI ['b', 'u', 'f', 'f', 'e', 'r'] s).bind fun t1 =>
  (plus1 Py.isSpace t1).bind fun t2 =>
  (plus1 Char.isDigit t2.2).bind fun t3 =>
  (litCI ['%'] t3.2).map fun _ => t3.1

/-- The seven capture groups of the status pattern. -/
structure RawCaps where
  in_rate : List Char
  in_unit : Option Char
  out_rate : List Char
  out_unit : Option Char
  total_val : List Char
  total_unit : Option Char
  buffer_pct : List Char
deriving DecidableEq

/-- Continuation after the lazy `.*?` and the total section: greedy `.*`
then `buffer\s+(\d+)%`. -/
def bufCont (a : (List Char × Option Char) × ((List Char × Option Char) ×
    (List Char × Option Char))) : List Char → Option RawCaps :=
  fun t => (bufferSec t).map fun pct =>
    ⟨a.1.1, a.1.2, a.2.1.1, a.2.1.2, a.2.2.1, a.2.2.2, pct⟩

/-- Continuation after the second rate section: lazy `.*?` then the total
section, then `bufCont`. -/
def totCont (a : (List Char × Option Char) × (List Char × Option Char)) :
    List Char → Option RawCaps :=
  fun t => (totalSec t).bind fun t13 =>
    scanGreedy (bufCont (a.1, a.2, t13.1)) t13.2

/-- Continuation after the first rate section: greedy `.*` then the `out`
section, then `totCont`. -/
def outCont (a : List Char × Option Char) : List Char → Option RawCaps :=
  fun t => (outSec t).bind fun t11 =>
    scanLazy (totCont (a, t11.1)) t11.2

/-- The whole pattern anchored at one start position. -/
def inCont : List Char → Option RawCaps :=
  fun t => (inSec t).bind fun t5 =>
    scanGreedy (outCont t5.1) t5.2

/-- `re.search(pattern, text)` for the status pattern: the capture groups
of the leftmost match. -/
def statusSearch (s : List Char) : Option RawCaps := scanSearch inCont s

/-- The parsed metrics, in bytes (`ℚ` models the Python floats). -/
structure Metrics where
  in_rate : ℚ
  out_rate : ℚ
  total_bytes : ℚ
  buffer_pct : ℕ
deriving DecidableEq

/-- The `units` dict `{"": 1, k/K: 1024, m/M: 1024**2, g/G: 1024**3}`
applied after `.upper()`; the regex guarantees the `.get(_, 1)` default is
only the no-unit case. -/
def unitScale : Option Char → ℚ
  | none => 1
  | some c =>
    if c.toUpper = 'K' then 1024
    else if c.toUpper = 'M' then 1024 ^ 2
    else if c.toUpper = 'G' then 1024 ^ 3
    else 1

/-- `LogManager.parse_mbuffer_status` (`logger.py` lines 63–99).  `.ok
none` is the `return None` no-match path; `.error ()` models the
`ValueError` that `float(...)` raises on a matched-but-malformed number
such as `"."` (the `[\d.]+` class admits it). -/
def parse_mbuffer_status (text : String) : Except Unit (Option Metrics) :=
  match statusSearch text.data with
  | none => Except.ok none
  | some caps =>
    match Py.pyFloat caps.in_rate, Py.pyFloat caps.out_rate,
        Py.pyFloat caps.total_val with
    | some a, some b, some c =>
      Except.ok (some ⟨a * unitScale caps.in_unit, b * unitScale caps.out_unit,
        c * unitScale caps.total_unit, Py.decimalVal caps.buffer_pct⟩)
    | _, _, _ => Except.error ()

end Copyem.Logger

namespace Copyem

open Copyem.Core (FileEntry)

/-- The two inner loops (from `core.py` and `__init__.py`) agree on every
state. -/
theorem innerLoop_eq (fs : List FileEntry) (tx bmd lat : ℚ) :
    ∀ (small : ℕ) (big : ℤ) (res : List FileEntry) (eta bt : ℚ),
      Core.innerLoop fs tx bmd lat small big res eta bt =
        Init.innerLoop fs tx bmd lat small big res eta bt := by
  intro small big res eta bt
  induction small, big, res, eta, bt using Core.innerLoop.induct fs tx bmd lat with
  | case1 small big res eta bt h sf ss heq st ih =>
    unfold st at ih
    rw [Core.innerLoop_pos fs tx bmd lat small big res eta bt h.1 h.2,
      Init.initInnerLoop_pos fs tx bmd lat small big res eta bt h.1 h.2, heq]
    dsimp only
    exact ih
  | case2 small big res eta bt h =>
    rw [Core.innerLoop_neg fs tx bmd lat small big res eta bt h,
      Init.initInnerLoop_neg fs tx bmd lat small big res eta bt h]

/-- The two outer loops agree on every state. -/
theorem outerLoop_eq (fs : List FileEntry) (tx bmd lat : ℚ) :
    ∀ (small : ℕ) (big : ℤ) (res : List FileEntry) (eta : ℚ),
      Core.outerLoop fs tx bmd lat small big res eta =
        Init.outerLoop fs tx bmd lat small big res eta := by
  intro small big res eta
  induction small, big, res, eta using Core.outerLoop.induct fs tx bmd lat with
  | case1 small big res eta h bf bs heq bt2 s2 r2 e2 heq2 ih =>
    unfold bt2 at heq2
    rw [Core.outerLoop_pos fs tx bmd lat small big res eta h,
      Init.initOuterLoop_pos fs tx bmd lat small big res eta h, heq]
    dsimp only
    rw [← innerLoop_eq fs tx bmd lat, heq2]
    dsimp only
    exact ih
  | case2 small big res eta h =>
    rw [Core.outerLoop_neg fs tx bmd lat small big res eta h,
      Init.initOuterLoop_neg fs tx bmd lat small big res eta h]

/-- The two `schedule_files` copies agree on every input (they are
textually identical in the sources). -/
theorem schedule_files_core_init_eq (fs : List FileEntry) (tx buf : ℕ) (lat : ℚ) :
    Core.schedule_files fs tx buf lat = Init.schedule_files fs tx buf lat := by
  rw [Core.schedule_files, Init.schedule_files]
  have hs : Init.sortedEntries fs = Core.sortedEntries fs := rfl
  rw [hs, outerLoop_eq]

/-- Full evaluation of the five-file end-to-end scenario of the spec:
sizes `[10, 10, 10, 10, 1000]`, `tx_speed = 100 B/s`,
`buffer_capacity = 50 B`, `latency = 0.05 s`.  The scheduler emits the big
file FIRST and then interleaves all four small files into its slack window;
the ETA is `10.45 s`. -/
theorem scheduleScenario :
    Core.schedule_files [("f1", 10), ("f2", 10), ("f3", 10), ("f4", 10), ("fbig", 1000)]
        100 50 (1/20) =
      some (["fbig", "f1", "f2", "f3", "f4"], 209/20) := by
  have h4 : Int.toNat 4 = 4 := rfl
  have h3 : Int.toNat 3 = 3 := rfl
  norm_num [Core.schedule_files, Core.sortedEntries, List.insertionSort,
    List.orderedInsert, h4, h3, Core.innerLoop_pos, Core.innerLoop_neg,
    Core.outerLoop_pos, Core.outerLoop_neg]

end Copyem

open Copyem Copyem.Core in
/-- Claim C1, counterexample: on the non-empty input `[("a", 0)]` with
`tx_speed = 1 > 0`, `buffer_size = 1 > 0`, `latency = 0 ≥ 0`, the scheduler
does not return any order at all: its accumulated ETA is `0`, so the unused
`estimated_speed = total_size / eta / 1024 / 1024` statement raises
`ZeroDivisionError` (modelled by `none`), and in particular no permutation
of the input is returned. -/
theorem claim_C1_counterexample :
    Copyem.Core.schedule_files [("a", 0)] 1 1 0 = none := by
  obtain ⟨resE, hPerm, hOut, _, _⟩ := schedule_files_char [("a", 0)] 1 1 0
  rw [Copyem.Core.schedule_files, hOut]
  norm_num [sizeSum]

open Copyem Copyem.Core in
/-- Claim C1 (amended): for every non-empty list of `(path, size)` entries
and parameters `tx_speed > 0`, `buffer_size > 0`, `latency ≥ 0`, provided
additionally that the accumulated ETA is nonzero (that is, `latency > 0` or
some entry has positive size — otherwise the dead `estimated_speed`
division raises `ZeroDivisionError`), the order returned by
`schedule_files` is a permutation of the input paths: the same multiset of
paths, with no duplicates and none dropped. -/
theorem claim_C1 (fs : List FileEntry) (tx buf : ℕ) (lat : ℚ)
    (htx : 0 < tx) (hbuf : 0 < buf) (hlat : 0 ≤ lat) (hfs : fs ≠ [])
    (hpos : 0 < lat ∨ 0 < sizeSum fs) :
    ∃ ord eta, Copyem.Core.schedule_files fs tx buf lat = some (ord, eta) ∧
      ord.Perm (fs.map Prod.fst) := by
  obtain ⟨ord, hEq, hPerm⟩ := schedule_files_some fs tx buf lat htx hlat hfs hpos
  exact ⟨ord, _, hEq, hPerm⟩

open Copyem Copyem.Core in
/-- Witness for claim C1 at a concrete input. -/
theorem claim_C1_witness :
    (0 < 10 ∧ 0 < 20 ∧ (0 : ℚ) ≤ 1 ∧ ([(("x" : String), (5 : ℕ))] ≠ []) ∧
      (0 < (1 : ℚ) ∨ 0 < sizeSum [("x", 5)])) ∧
    ∃ ord eta, Copyem.Core.schedule_files [("x", 5)] 10 20 1 = some (ord, eta) ∧
      ord.Perm ["x"] :=
  ⟨⟨by decide, by decide, by norm_num, by decide, Or.inl (by norm_num)⟩,
    claim_C1 [("x", 5)] 10 20 1 (by decide) (by decide) (by norm_num)
      (by decide) (Or.inl (by norm_num))⟩

open Copyem Copyem.Core in
/-- Claim C3, counterexample: on the non-empty input
`[("b", 0), ("c", 0)]` with `tx_speed = 2 > 0`, `buffer_size = 3 > 0` and
`latency = 0`, the accumulated ETA is `0`, so `schedule_files` raises
`ZeroDivisionError` in the dead `estimated_speed` statement (modelled by
`none`) and returns no ETA at all, contradicting the claimed formula. -/
theorem claim_C3_counterexample :
    Copyem.Core.schedule_files [("b", 0), ("c", 0)] 2 3 0 = none := by
  obtain ⟨resE, hPerm, hOut, _, _⟩ := schedule_files_char [("b", 0), ("c", 0)] 2 3 0
  rw [Copyem.Core.schedule_files, hOut]
  norm_num [sizeSum]

open Copyem Copyem.Core in
/-- Claim C3 (amended): for every non-empty input with `tx_speed > 0` and
`buffer_size > 0`, `latency ≥ 0`, provided the accumulated ETA is nonzero
(`latency > 0` or positive total size — otherwise the dead
`estimated_speed` division raises `ZeroDivisionError`), the ETA returned by
`schedule_files` equals the sum over all entries of `size / tx_speed` plus
`latency` times the number of outer-loop (big-file) emission steps; in
particular, for a one-element list the ETA equals
`size / tx_speed + latency`. -/
theorem claim_C3 (fs : List FileEntry) (tx buf : ℕ) (lat : ℚ)
    (htx : 0 < tx) (hbuf : 0 < buf) (hlat : 0 ≤ lat) (hfs : fs ≠ [])
    (hpos : 0 < lat ∨ 0 < sizeSum fs) :
    (∃ ord, Copyem.Core.schedule_files fs tx buf lat =
        some (ord, (sizeSum fs : ℚ) / (tx : ℚ) +
          lat * (bigSteps fs tx buf lat : ℚ))) ∧
    (∀ (p : String) (s : ℕ), fs = [(p, s)] →
      Copyem.Core.schedule_files fs tx buf lat =
        some ([p], (s : ℚ) / (tx : ℚ) + lat)) := by
  obtain ⟨ord, hEq, hPerm⟩ := schedule_files_some fs tx buf lat htx hlat hfs hpos
  refine ⟨⟨ord, hEq⟩, ?_⟩
  intro p s hfs1
  subst hfs1
  obtain ⟨_, _, _, hK1, hK2⟩ := schedule_files_char [(p, s)] tx buf lat
  have hk : bigSteps [(p, s)] tx buf lat = 1 := by
    have h1 := hK1 (by simp)
    have h2 : bigSteps [(p, s)] tx buf lat ≤ 1 := by simpa using hK2
    omega
  have hord : ord = [p] := by
    simpa using hPerm
  rw [hord, hk] at hEq
  have hsz : sizeSum [(p, s)] = s := by simp [sizeSum]
  rw [hsz] at hEq
  simpa using hEq

open Copyem Copyem.Core in
/-- Witness for claim C3 at a concrete input. -/
theorem claim_C3_witness :
    (0 < 4 ∧ 0 < 7 ∧ (0 : ℚ) ≤ 2 ∧ ([(("y" : String), (8 : ℕ))] ≠ []) ∧
      (0 < (2 : ℚ) ∨ 0 < sizeSum [("y", 8)])) ∧
    Copyem.Core.schedule_files [("y", 8)] 4 7 2 =
      some (["y"], ((8 : ℕ) : ℚ) / ((4 : ℕ) : ℚ) + 2) :=
  ⟨⟨by decide, by decide, by norm_num, by decide, Or.inl (by norm_num)⟩,
    (claim_C3 [("y", 8)] 4 7 2 (by decide) (by decide) (by norm_num)
      (by decide) (Or.inl (by norm_num))).2 "y" 8 rfl⟩

open Copyem Copyem.Core in
/-- Claim C4: the code has a bug here.  `schedule_files` called with an
empty entries list accumulates `eta = 0.0` and then executes
`estimated_speed = total_size / eta / 1024 / 1024`, a division by zero that
raises `ZeroDivisionError` instead of returning the empty order and zero
ETA promised by the spec.  The theorem evaluates the embedded code at the
failing input. -/
theorem claim_C4 :
    Copyem.Core.schedule_files [] 100 50 (3/20) = none :=
  schedule_files_nil 100 50 (3/20)

open Copyem Copyem.Core in
/-- Claim C5, counterexample: in the spec's end-to-end scenario (five files
of sizes `[10, 10, 10, 10, 1000]`, `tx_speed = 100 B/s`,
`buffer_capacity = 50 B` — nonzero slack — and `latency = 0.05 s`) the
1000-byte file IS the very first item of the returned order, contradicting
the claim that it is not first when slack is nonzero. -/
theorem claim_C5_counterexample :
    (Copyem.Core.schedule_files
        [("f1", 10), ("f2", 10), ("f3", 10), ("f4", 10), ("fbig", 1000)]
        100 50 (1/20)).map (fun r => r.1.head?) = some (some "fbig") := by
  rw [scheduleScenario]
  rfl

open Copyem Copyem.Core in
/-- Claim C5 (amended): in the scenario of five files of sizes
`[10, 10, 10, 10, 1000]` bytes with `tx_speed = 100 B/s`,
`buffer_capacity = 50 B`, `latency = 0.05 s`, the scheduler emits the big
(1000-byte) file first and interleaves all four small files immediately
after it, inside the slack window opened by the big file's transmission;
the returned ETA is `10.45 s`. -/
theorem claim_C5 :
    Copyem.Core.schedule_files
        [("f1", 10), ("f2", 10), ("f3", 10), ("f4", 10), ("fbig", 1000)]
        100 50 (1/20) =
      some (["fbig", "f1", "f2", "f3", "f4"], 209/20) :=
  scheduleScenario

open Copyem Copyem.Core in
/-- Claim C10: the two definitions of `schedule_files`, in `core.py` and in
`__init__.py`, are extensionally equal: for every input with
`tx_speed > 0` they return the same ordered path list and the same ETA
(they are in fact textually identical, and the embeddings agree on every
input). -/
theorem claim_C10 (fs : List FileEntry) (tx buf : ℕ) (lat : ℚ)
    (htx : 0 < tx) :
    Copyem.Core.schedule_files fs tx buf lat =
      Copyem.Init.schedule_files fs tx buf lat :=
  schedule_files_core_init_eq fs tx buf lat

open Copyem Copyem.Core in
/-- Witness for claim C10 at a concrete input. -/
theorem claim_C10_witness :
    (0 < 3) ∧
    Copyem.Core.schedule_files [("w", 6)] 3 9 (1/2) =
      Copyem.Init.schedule_files [("w", 6)] 3 9 (1/2) :=
  ⟨by decide, claim_C10 [("w", 6)] 3 9 (1/2) (by decide)⟩

namespace Copyem.Retry

/-- Modelled from the spec: the retry state machine of spec §4.4 is not
implemented in the sources under `src/` (`main` in `__init__.py` lines
634–641 only waits for the pipeline processes and logs non-zero exits; the
transport-stage completion log collected in `LogManager.ssh_messages` is
never fed back into a retry).  Per spec §4.4 `Running→Retrying` step (1),
after a failed attempt the confirmed-delivered set is the attempt's
completion log minus its final (possibly truncated) entry. -/
def confirmedFromLog (log : List String) : List String := log.dropLast

/-- Modelled from the spec: §4.4 `Running→Retrying` step (5) — the next
attempt runs with the previous remaining list minus the confirmed-delivered
set; every unconfirmed path is kept. -/
def nextRemaining (remaining log : List String) : List String :=
  remaining.filter (fun p => decide (p ∉ confirmedFromLog log))

end Copyem.Retry

/-- Claim C2: after an attempt fails with completion log `[a, b]` (where `b`
may be a truncated final entry), the confirmed-delivered set is exactly
`[a]` — the log minus its last entry — and the next attempt's remaining
list excludes exactly `{a}`: a path survives into the retry iff it was in
`remaining` and differs from `a`.  The final log entry `b` is never
trusted as delivered. -/
theorem claim_C2 (a b : String) (remaining : List String) :
    Copyem.Retry.confirmedFromLog [a, b] = [a] ∧
    ∀ p, p ∈ Copyem.Retry.nextRemaining remaining [a, b] ↔
      (p ∈ remaining ∧ p ≠ a) := by
  refine ⟨rfl, ?_⟩
  intro p
  simp [Copyem.Retry.nextRemaining, Copyem.Retry.confirmedFromLog]

namespace Copyem

/-- If a function returns `some` on every element, `mapM` over the `Option`
monad succeeds and relates the lists pointwise. -/
theorem mapM_option_some {α β : Type} (f : α → Option β) :
    ∀ (l : List α), (∀ x ∈ l, ∃ y, f x = some y) →
      ∃ ls, l.mapM f = some ls ∧
        List.Forall₂ (fun x y => f x = some y) l ls := by
  intro l
  induction l with
  | nil => intro _; exact ⟨[], rfl, List.Forall₂.nil⟩
  | cons a l ih =>
    intro h
    obtain ⟨b, hb⟩ := h a (List.mem_cons_self a l)
    obtain ⟨ls, hls, hF⟩ := ih (fun x hx => h x (List.mem_cons_of_mem a hx))
    refine ⟨b :: ls, ?_, List.Forall₂.cons hb hF⟩
    rw [List.mapM_cons, hb, hls]
    rfl

/-- Transport a pointwise order-permutation fact through the two `map`s
used to compare lane outputs with lane inputs. -/
theorem forall2_perm_maps {parts : List (List Core.FileEntry)}
    {ls : List (List String × ℚ)}
    (h : List.Forall₂ (fun part y => (Prod.fst y).Perm (part.map Prod.fst)) parts ls) :
    List.Forall₂ List.Perm (ls.map Prod.fst)
      (parts.map (fun part => part.map Prod.fst)) := by
  induction h with
  | nil => exact List.Forall₂.nil
  | cons h1 _ ih => exact List.Forall₂.cons h1 ih

end Copyem

open Copyem Copyem.Core Copyem.Init in
/-- Claim C8, counterexample: with two lanes and a single discovered file,
lane 2's part is empty, so `schedule_files` on that lane hits the
`estimated_speed` division by `eta = 0` and raises `ZeroDivisionError`
(modelled by `none`): after per-lane scheduling there are no ordered lane
lists at all, and the input path occurs in none of them. -/
theorem claim_C8_counterexample :
    Copyem.Init.laneSchedules 2 [("a", 1)] 100 50 (3/20) = none := by
  have hrr : Copyem.Init.roundRobin 2 [("a", 1)] = [[("a", 1)], []] := rfl
  rw [Copyem.Init.laneSchedules, hrr]
  obtain ⟨ord, hEq, _⟩ := schedule_files_some [("a", 1)] 100 50 (3/20)
    (by decide) (by norm_num) (by decide) (Or.inl (by norm_num))
  rw [schedule_files_core_init_eq] at hEq
  have hnil : Copyem.Init.schedule_files [] 100 50 (3/20) = none := by
    rw [← schedule_files_core_init_eq]
    exact schedule_files_nil 100 50 (3/20)
  rw [List.mapM_cons, List.mapM_cons, List.mapM_nil, hEq, hnil]
  rfl

open Copyem Copyem.Core Copyem.Init in
/-- Claim C8 (amended): with at least one lane and at least as many files
as lanes (so that no lane's part is empty), positive assumed speed and
positive per-file latency (so that no lane's scheduling raises on a zero
ETA), the round-robin partition assigns every discovered file to exactly
one lane — the concatenation of the parts is a permutation of the input —
and after per-lane scheduling every input path occurs in exactly one lane's
ordered list, exactly once: the concatenation of the lane orders is a
permutation of the input paths. -/
theorem claim_C8 (p : ℕ) (fs : List FileEntry) (tx buf : ℕ) (lat : ℚ)
    (hp : 0 < p) (hpn : p ≤ fs.length) (htx : 0 < tx) (hbuf : 0 < buf)
    (hlat : 0 < lat) :
    ((Copyem.Init.roundRobin p fs).flatten).Perm fs ∧
    ∃ ls, Copyem.Init.laneSchedules p fs tx buf lat = some ls ∧
      ((ls.map Prod.fst).flatten).Perm (fs.map Prod.fst) := by
  refine ⟨flatten_roundRobin p hp fs, ?_⟩
  have hlenRR : (Copyem.Init.roundRobin p fs).length = p := by
    rw [Copyem.Init.roundRobin, length_foldl_rrStep]
    simp
  -- every part is non-empty, hence schedulable
  have hparts : ∀ part ∈ Copyem.Init.roundRobin p fs,
      ∃ y, Copyem.Init.schedule_files part tx buf lat = some y := by
    intro part hmem
    obtain ⟨j, hj, hjev⟩ := List.mem_iff_getElem.mp hmem
    rw [hlenRR] at hj
    have hne : part ≠ [] := by
      have := roundRobin_getD_ne_nil p hp fs hpn j hj
      rw [getD_eq_getElem _ j [] (by rw [hlenRR]; exact hj), hjev] at this
      exact this
    obtain ⟨ord, hEq, _⟩ := schedule_files_some part tx buf lat htx
      (le_of_lt hlat) hne (Or.inl hlat)
    rw [schedule_files_core_init_eq] at hEq
    exact ⟨_, hEq⟩
  obtain ⟨ls, hls, hF⟩ := mapM_option_some
    (fun part => Copyem.Init.schedule_files part tx buf lat)
    (Copyem.Init.roundRobin p fs) hparts
  refine ⟨ls, hls, ?_⟩
  have hF2 : List.Forall₂ (fun part y => (Prod.fst y).Perm (part.map Prod.fst))
      (Copyem.Init.roundRobin p fs) ls := by
    refine hF.imp ?_
    intro part y hy
    rw [← schedule_files_core_init_eq] at hy
    exact schedule_files_some_perm part tx buf lat hy
  have hflat := (List.Perm.flatten_congr (forall2_perm_maps hF2))
  refine hflat.trans ?_
  have hmapflat : (List.map (fun part => part.map Prod.fst)
      (Copyem.Init.roundRobin p fs)).flatten =
      ((Copyem.Init.roundRobin p fs).flatten).map Prod.fst := by
    rw [List.map_flatten]
  rw [hmapflat]
  exact (flatten_roundRobin p hp fs).map Prod.fst

open Copyem Copyem.Core Copyem.Init in
/-- Witness for claim C8 at a concrete input. -/
theorem claim_C8_witness :
    (0 < 1 ∧ 1 ≤ ([(("a" : String), (1 : ℕ))] : List FileEntry).length ∧
      0 < 100 ∧ 0 < 50 ∧ (0 : ℚ) < 3/20) ∧
    (((Copyem.Init.roundRobin 1 [("a", 1)]).flatten).Perm [("a", 1)] ∧
    ∃ ls, Copyem.Init.laneSchedules 1 [("a", 1)] 100 50 (3/20) = some ls ∧
      ((ls.map Prod.fst).flatten).Perm ["a"]) :=
  ⟨⟨by decide, by decide, by decide, by decide, by norm_num⟩,
    claim_C8 1 [("a", 1)] 100 50 (3/20) (by decide) (by decide) (by decide)
      (by decide) (by norm_num)⟩

open Copyem.Py Copyem.Utils in
/-- Claim C9: `parse_size_to_bytes` raises `ValueError` if and only if the
trimmed input is empty, the numeric prefix before the unit is not parseable
as a number, or the parsed number is negative; otherwise it returns
`int(number * multiplier)` for the suffixes `B`, `K`/`KB`, `M`/`MB`,
`G`/`GB`, `T`/`TB` (case-insensitive via upper-casing; no suffix means
bytes), where a valid unit suffix with no number defaults the number to
`1` — e.g. `"K"` yields `1024`. -/
theorem claim_C9 :
    (∀ s : String,
      ((∃ e, parse_size_to_bytes s = Except.error e) ↔
        (pyStrip s.data = [] ∨
          (numPart s ≠ [] ∧ pyFloat (numPart s) = none) ∨
          (∃ q : ℚ, numValue s = some q ∧ q < 0))) ∧
      (∀ q : ℚ, numValue s = some q → 0 ≤ q → pyStrip s.data ≠ [] →
        parse_size_to_bytes s = Except.ok ⌊q * (unitMult (unitPart s) : ℚ)⌋)) ∧
    parse_size_to_bytes "K" = Except.ok 1024 := by
  constructor
  · intro s
    by_cases h0 : pyStrip s.data = []
    · have hparse : parse_size_to_bytes s =
          Except.error "Size string cannot be empty" := by
        simp [parse_size_to_bytes, pyUpper, h0]
      constructor
      · constructor
        · intro _; exact Or.inl h0
        · intro _; exact ⟨_, hparse⟩
      · intro q _ _ hne; exact absurd h0 hne
    · have hne : (pyUpper (pyStrip s.data)).isEmpty = false := by
        simp [pyUpper, List.isEmpty_iff, h0]
      cases hifq : numValue s with
      | none =>
        have hnum : numPart s ≠ [] ∧ pyFloat (numPart s) = none := by
          rw [numValue] at hifq
          by_cases hnil : (numPart s).isEmpty
          · rw [if_pos hnil] at hifq; exact absurd hifq (by simp)
          · rw [if_neg hnil] at hifq
            exact ⟨by simpa [List.isEmpty_iff] using hnil, hifq⟩
        have hparse : parse_size_to_bytes s = Except.error
            ("Invalid size format: " ++ String.mk (pyUpper (pyStrip s.data))) := by
          rw [parse_size_to_bytes]
          simp only [hne, Bool.false_eq_true, if_false]
          have hifq2 : (if (sizeSplit (pyUpper (pyStrip s.data))).2.isEmpty
              then some (1 : ℚ)
              else pyFloat (sizeSplit (pyUpper (pyStrip s.data))).2) = none := by
            simpa [numValue, numPart] using hifq
          rw [hifq2]
        constructor
        · constructor
          · intro _; exact Or.inr (Or.inl hnum)
          · intro _; exact ⟨_, hparse⟩
        · intro q hq; exact absurd hq (by simp)
      | some q0 =>
        have hifq2 : (if (sizeSplit (pyUpper (pyStrip s.data))).2.isEmpty
            then some (1 : ℚ)
            else pyFloat (sizeSplit (pyUpper (pyStrip s.data))).2) = some q0 := by
          simpa [numValue, numPart] using hifq
        by_cases hneg : q0 < 0
        · have hparse : parse_size_to_bytes s = Except.error
              ("Size cannot be negative: " ++ String.mk (pyUpper (pyStrip s.data))) := by
            rw [parse_size_to_bytes]
            simp only [hne, Bool.false_eq_true, if_false]
            rw [hifq2]
            simp only [if_pos hneg]
          constructor
          · constructor
            · intro _; exact Or.inr (Or.inr ⟨q0, rfl, hneg⟩)
            · intro _; exact ⟨_, hparse⟩
          · intro q hq hq0 _
            obtain rfl : q0 = q := Option.some.inj hq
            exact absurd hq0 (not_le.mpr hneg)
        · have hparse : parse_size_to_bytes s = Except.ok
              ⌊q0 * (unitMult (unitPart s) : ℚ)⌋ := by
            rw [parse_size_to_bytes]
            simp only [hne, Bool.false_eq_true, if_false]
            rw [hifq2]
            simp only [if_neg hneg]
            rfl
          constructor
          · constructor
            · intro ⟨e, he⟩
              rw [hparse] at he
              exact absurd he (by simp)
            · intro hrhs
              rcases hrhs with h | ⟨hnnil, hnone⟩ | ⟨q', hq', hlt⟩
              · exact absurd h h0
              · have : ¬ (numPart s).isEmpty := by simpa [List.isEmpty_iff] using hnnil
                rw [numValue, if_neg this, hnone] at hifq
                exact absurd hifq (by simp)
              · obtain rfl : q0 = q' := Option.some.inj hq'
                exact absurd hlt hneg
          · intro q hq _ _
            obtain rfl : q0 = q := Option.some.inj hq
            exact hparse
  · simp [parse_size_to_bytes, pyStrip, pyUpper, sizeSplit, unitSuffixes, unitMult,
      isSpace, Copyem.Py.pyFloat, List.find?, List.isSuffixOf, List.isPrefixOf]

open Copyem.Py Copyem.Utils in
/-- Witness for claim C9: the success clause applied at `"5K"`. -/
theorem claim_C9_witness :
    parse_size_to_bytes "5K" = Except.ok 5120 := by
  have hq : numValue "5K" = some 5 := by
    simp [numValue, numPart, sizeSplit, pyStrip, pyUpper, unitSuffixes, isSpace,
      Copyem.Py.pyFloat, Copyem.Py.takeWhileSplit, Copyem.Py.signSplit,
      Copyem.Py.expPart, Copyem.Py.decimalVal, Copyem.Py.digitVal,
      List.find?, List.isSuffixOf, List.isPrefixOf]
  have h := (claim_C9.1 "5K").2 5 hq (by norm_num)
    (by simp [pyStrip, isSpace])
  rw [h]
  have hu : unitPart "5K" = ['K'] := by
    simp [unitPart, sizeSplit, pyStrip, pyUpper, unitSuffixes, isSpace,
      List.find?, List.isSuffixOf, List.isPrefixOf]
  rw [hu]
  have : ⌊(5 : ℚ) * (unitMult ['K'] : ℚ)⌋ = 5120 := by
    simp [unitMult]
    norm_num
  rw [this]

open Copyem.Py Copyem.Logger in
/-- Claim C6: on the exact line
`"in @ 14.0 MiB/s, out @ 24.0 MiB/s,  656 MiB total, buffer  99% full"`
the status parser returns `in_rate = 14.0 · 2^20`, `out_rate = 24.0 · 2^20`,
`total_bytes = 656 · 2^20`, `buffer_pct = 99`; and on every line the
pattern does not match it returns the no-match value (`None`) rather than
raising. -/
theorem claim_C6 :
    parse_mbuffer_status
        "in @ 14.0 MiB/s, out @ 24.0 MiB/s,  656 MiB total, buffer  99% full" =
      Except.ok (some ⟨14 * 2 ^ 20, 24 * 2 ^ 20, 656 * 2 ^ 20, 99⟩) ∧
    ∀ s : String, statusSearch s.data = none →
      parse_mbuffer_status s = Except.ok none := by
  constructor
  · have hcaps : statusSearch
        "in @ 14.0 MiB/s, out @ 24.0 MiB/s,  656 MiB total, buffer  99% full".data =
        some ⟨['1','4','.','0'], some 'M', ['2','4','.','0'], some 'M',
              ['6','5','6'], some 'M', ['9','9']⟩ := by decide
    rw [parse_mbuffer_status, hcaps]
    have h1 : pyFloat ['1','4','.','0'] = some 14 := by
      simp [pyFloat, takeWhileSplit, signSplit, expPart, decimalVal, digitVal,
        isSpace, expScale]
    have h2 : pyFloat ['2','4','.','0'] = some 24 := by
      simp [pyFloat, takeWhileSplit, signSplit, expPart, decimalVal, digitVal,
        isSpace, expScale]
    have h3 : pyFloat ['6','5','6'] = some 656 := by
      simp [pyFloat, takeWhileSplit, signSplit, expPart, decimalVal, digitVal,
        isSpace, expScale]
    dsimp only
    rw [h1, h2, h3]
    dsimp only
    simp only [Except.ok.injEq, Option.some.injEq, Metrics.mk.injEq]
    refine ⟨?_, ?_, ?_, ?_⟩
    · simp [unitScale]; norm_num
    · simp [unitScale]; norm_num
    · simp [unitScale]; norm_num
    · simp [decimalVal, digitVal]
  · intro s h
    rw [parse_mbuffer_status, h]

open Copyem.Logger in
/-- Witness for claim C6: the no-match clause applied at a concrete
unrelated line. -/
theorem claim_C6_witness :
    parse_mbuffer_status "hello world" = Except.ok none :=
  claim_C6.2 "hello world" (by decide)

open Copyem.Logger in
/-- Claim C7, counterexample: a status line of the spec's form whose units
lack the `i` infix (`MB/s` instead of `MiB/s`) does NOT parse: the regex
requires the literal `iB` after the optional unit letter, so the parser
returns the no-match value rather than metrics. -/
theorem claim_C7_counterexample :
    parse_mbuffer_status
        "in @ 14.0 MB/s, out @ 24.0 MB/s, 656 MB total, buffer 99% full" =
      Except.ok none := by
  have h : statusSearch
      "in @ 14.0 MB/s, out @ 24.0 MB/s, 656 MB total, buffer 99% full".data =
      none := by decide
  rw [parse_mbuffer_status, h]

namespace Copyem.Logger

/-- The ten ASCII digit characters. -/
def digitChars : List Char := ['0','1','2','3','4','5','6','7','8','9']

/-- The six unit letters of the `[kKmMgG]` class. -/
def unitChars : List Char := ['k','K','m','M','g','G']

/-- A nonempty all-digit capture, as the claim's `<rate>`/`<total>`/`<pct>`
placeholders produce. -/
def allDigits (l : List Char) : Prop := l ≠ [] ∧ ∀ c ∈ l, c ∈ digitChars

/-- A unit placeholder: absent, or one of the six class letters. -/
def unitOk (u : Option Char) : Prop := ∀ c, u = some c → c ∈ unitChars

/-- A run of spaces. -/
def sp (n : ℕ) : List Char := List.replicate n ' '

/-- The unit placeholder as text. -/
def ou : Option Char → List Char := Option.toList

theorem digit_facts : ∀ c ∈ digitChars,
    Char.isDigit c = true ∧ isDigitDot c = true ∧ Py.isSpace c = false ∧
    isUnitLetter c = false ∧ c.toLower ≠ 'o' ∧ c.toLower ≠ 'b' ∧ c ≠ '\n' := by
  decide

theorem unit_facts : ∀ c ∈ unitChars,
    isUnitLetter c = true ∧ Py.isSpace c = false ∧ isDigitDot c = false ∧
    c.toLower ≠ 'o' ∧ c.toLower ≠ 'b' ∧ c.toLower ≠ 'i' ∧ c ≠ '\n' := by
  decide

/-- The head of `r`, if any, does not satisfy `f`. -/
def headNot (f : Char → Bool) : List Char → Prop
  | [] => True
  | c :: _ => f c = false

theorem tws_exact (f : Char → Bool) :
    ∀ (l r : List Char), (∀ c ∈ l, f c = true) → headNot f r →
      Py.takeWhileSplit f (l ++ r) = (l, r) := by
  intro l
  induction l with
  | nil =>
    intro r _ hr
    cases r with
    | nil => rfl
    | cons c cs =>
      simp only [List.nil_append, Py.takeWhileSplit]
      rw [if_neg]
      simp [headNot] at hr
      simp [hr]
  | cons a l ih =>
    intro r hl hr
    simp only [List.cons_append, Py.takeWhileSplit, List.append_eq]
    rw [if_pos (hl a (List.mem_cons_self a l))]
    rw [ih r (fun c hc => hl c (List.mem_cons_of_mem a hc)) hr]

theorem plus1_exact (f : Char → Bool) (l r : List Char) (hl : l ≠ [])
    (h1 : ∀ c ∈ l, f c = true) (h2 : headNot f r) :
    plus1 f (l ++ r) = some (l, r) := by
  rw [plus1, tws_exact f l r h1 h2]
  simp [List.isEmpty_iff, hl]

theorem plus1_head_false (f : Char → Bool) (c : Char) (r : List Char)
    (h : f c = false) : plus1 f (c :: r) = none := by
  simp [plus1, Py.takeWhileSplit, h]

theorem litCI_head_ne (pc : Char) (pr : List Char) (c : Char) (r : List Char)
    (h : c.toLower ≠ pc.toLower) : litCI (pc :: pr) (c :: r) = none := by
  simp [litCI, h]

/-- No suffix of `s` starts with a case-insensitive match of `pat`. -/
def noLitCI (pat s : List Char) : Prop :=
  ∀ t, t <:+ s → litCI pat t = none

theorem noLitCI_nil (pc : Char) (pr : List Char) : noLitCI (pc :: pr) [] := by
  intro t ht
  rw [List.suffix_nil.mp ht]
  rfl

theorem noLitCI_cons (pat : List Char) (c : Char) (s : List Char)
    (h1 : litCI pat (c :: s) = none) (h2 : noLitCI pat s) :
    noLitCI pat (c :: s) := by
  intro t ht
  rcases List.suffix_cons_iff.mp ht with rfl | ht'
  · exact h1
  · exact h2 t ht'

theorem noLitCI_append (pc : Char) (pr : List Char) (l s : List Char)
    (hl : ∀ c ∈ l, c.toLower ≠ pc.toLower) (hs : noLitCI (pc :: pr) s) :
    noLitCI (pc :: pr) (l ++ s) := by
  induction l with
  | nil => simpa using hs
  | cons a l ih =>
    rw [List.cons_append]
    refine noLitCI_cons _ a (l ++ s)
      (litCI_head_ne pc pr a (l ++ s) (hl a (List.mem_cons_self a l))) ?_
    exact ih (fun c hc => hl c (List.mem_cons_of_mem a hc))

theorem scanGreedy_none {α : Type} (p : List Char → Option α) :
    ∀ (s : List Char), (∀ t, t <:+ s → p t = none) → scanGreedy p s = none := by
  intro s
  induction s with
  | nil => intro h; simpa [scanGreedy] using h [] (List.suffix_refl [])
  | cons c cs ih =>
    intro h
    by_cases hc : c = '\n'
    · simp only [scanGreedy, if_pos hc]
      exact h (c :: cs) (List.suffix_refl _)
    · simp only [scanGreedy, if_neg hc]
      rw [ih (fun t ht => h t (ht.trans (List.suffix_cons c cs)))]
      exact h (c :: cs) (List.suffix_refl _)

theorem scanGreedy_cons_some {α : Type} (p : List Char → Option α) (c : Char)
    (cs : List Char) (r : α) (hc : c ≠ '\n') (h : scanGreedy p cs = some r) :
    scanGreedy p (c :: cs) = some r := by
  simp [scanGreedy, hc, h]

theorem scanGreedy_cons_fallback {α : Type} (p : List Char → Option α) (c : Char)
    (cs : List Char) (hc : c ≠ '\n') (h : scanGreedy p cs = none) :
    scanGreedy p (c :: cs) = p (c :: cs) := by
  simp [scanGreedy, hc, h]

theorem scanLazy_found {α : Type} (p : List Char → Option α) (s : List Char)
    (r : α) (h : p s = some r) : scanLazy p s = some r := by
  cases s <;> simp [scanLazy, h]

theorem scanLazy_cons_step {α : Type} (p : List Char → Option α) (c : Char)
    (cs : List Char) (hc : c ≠ '\n') (h : p (c :: cs) = none) :
    scanLazy p (c :: cs) = scanLazy p cs := by
  simp [scanLazy, hc, h]

theorem scanSearch_found {α : Type} (p : List Char → Option α) (s : List Char)
    (r : α) (h : p s = some r) : scanSearch p s = some r := by
  cases s <;> simp [scanSearch, h]

theorem outCont_of_litCI (a : List Char × Option Char) (t : List Char)
    (h : litCI ['o', 'u', 't'] t = none) : outCont a t = none := by
  simp [outCont, outSec, h]

theorem bufCont_of_litCI (a : (List Char × Option Char) ×
    ((List Char × Option Char) × (List Char × Option Char))) (t : List Char)
    (h : litCI ['b', 'u', 'f', 'f', 'e', 'r'] t = none) : bufCont a t = none := by
  simp [bufCont, bufferSec, h]

theorem totCont_head (a : (List Char × Option Char) × (List Char × Option Char))
    (c : Char) (r : List Char) (h : isDigitDot c = false) :
    totCont a (c :: r) = none := by
  simp [totCont, totalSec, plus1_head_false isDigitDot c r h]

end Copyem.Logger

namespace Copyem.Logger

theorem sp_ne_nil (a : ℕ) (ha : 1 ≤ a) : sp a ≠ [] := by
  simp only [sp, ne_eq, List.replicate_eq_nil_iff]
  omega

theorem sp_all (f : Char → Bool) (hf : f ' ' = true) (a : ℕ) :
    ∀ c ∈ sp a, f c = true := by
  intro c hc
  rw [List.eq_of_mem_replicate hc]
  exact hf

theorem headNot_sp (f : Char → Bool) (hf : f ' ' = false) (a : ℕ) (ha : 1 ≤ a)
    (X : List Char) : headNot f (sp a ++ X) := by
  cases a with
  | zero => omega
  | succ n =>
    show headNot f (List.replicate (n + 1) ' ' ++ X)
    rw [List.replicate_succ, List.cons_append]
    exact hf

theorem headNot_digits (f : Char → Bool) (hdf : ∀ c ∈ digitChars, f c = false)
    (d : List Char) (hd : allDigits d) (X : List Char) :
    headNot f (d ++ X) := by
  obtain ⟨hne, hdc⟩ := hd
  cases d with
  | nil => exact absurd rfl hne
  | cons c d' =>
    rw [List.cons_append]
    exact hdf c (hdc c (List.mem_cons_self c d'))

theorem headNot_ou_cons (f : Char → Bool) (u : Option Char) (hu : unitOk u)
    (hUnit : ∀ c ∈ unitChars, f c = false) (c0 : Char) (hc0 : f c0 = false)
    (X : List Char) : headNot f (ou u ++ c0 :: X) := by
  cases u with
  | none => exact hc0
  | some c =>
    show headNot f (c :: (ou none ++ c0 :: X))
    exact hUnit c (hu c rfl)

theorem optCls_ou (u : Option Char) (hu : unitOk u) (X : List Char) :
    optCls isUnitLetter (ou u ++ 'i' :: X) = (u, 'i' :: X) := by
  cases u with
  | none => simp [ou, optCls, isUnitLetter]
  | some c =>
    have hc : isUnitLetter c = true := (unit_facts c (hu c rfl)).1
    simp [ou, optCls, hc]

theorem rateUnit_exact (d : List Char) (a : ℕ) (u : Option Char)
    (rest : List Char) (hd : allDigits d) (ha : 1 ≤ a) (hu : unitOk u) :
    rateUnit (d ++ (sp a ++ (ou u ++ ('i' :: 'B' :: '/' :: 's' :: rest)))) =
      some ((d, u), rest) := by
  have h1 : plus1 isDigitDot (d ++ (sp a ++ (ou u ++ ('i' :: 'B' :: '/' :: 's' :: rest)))) =
      some (d, sp a ++ (ou u ++ ('i' :: 'B' :: '/' :: 's' :: rest))) :=
    plus1_exact _ _ _ hd.1 (fun c hc => (digit_facts c (hd.2 c hc)).2.1)
      (headNot_sp _ (by decide) a ha _)
  have h2 : plus1 Py.isSpace (sp a ++ (ou u ++ ('i' :: 'B' :: '/' :: 's' :: rest))) =
      some (sp a, ou u ++ ('i' :: 'B' :: '/' :: 's' :: rest)) :=
    plus1_exact _ _ _ (sp_ne_nil a ha) (sp_all _ (by decide) a)
      (headNot_ou_cons _ u hu (fun c hc => (unit_facts c hc).2.1) 'i' (by decide) _)
  rw [rateUnit, h1]
  dsimp only [Option.some_bind]
  rw [h2]
  dsimp only [Option.some_bind]
  rw [optCls_ou u hu]
  simp [litCI]

theorem inSec_exact (a1 a2 a3 : ℕ) (d : List Char) (u : Option Char)
    (rest : List Char) (ha1 : 1 ≤ a1) (ha2 : 1 ≤ a2) (ha3 : 1 ≤ a3)
    (hd : allDigits d) (hu : unitOk u) :
    inSec ('i' :: 'n' :: (sp a1 ++ ('@' :: (sp a2 ++
        (d ++ (sp a3 ++ (ou u ++ ('i' :: 'B' :: '/' :: 's' :: rest)))))))) =
      some ((d, u), rest) := by
  have hlit : litCI ['i', 'n'] ('i' :: 'n' :: (sp a1 ++ ('@' :: (sp a2 ++
      (d ++ (sp a3 ++ (ou u ++ ('i' :: 'B' :: '/' :: 's' :: rest)))))))) =
      some (sp a1 ++ ('@' :: (sp a2 ++
        (d ++ (sp a3 ++ (ou u ++ ('i' :: 'B' :: '/' :: 's' :: rest))))))) := by
    simp [litCI]
  have h1 : plus1 Py.isSpace (sp a1 ++ ('@' :: (sp a2 ++
      (d ++ (sp a3 ++ (ou u ++ ('i' :: 'B' :: '/' :: 's' :: rest))))))) =
      some (sp a1, '@' :: (sp a2 ++
        (d ++ (sp a3 ++ (ou u ++ ('i' :: 'B' :: '/' :: 's' :: rest)))))) :=
    plus1_exact _ _ _ (sp_ne_nil a1 ha1) (sp_all _ (by decide) a1) (show Py.isSpace '@' = false by decide)
  have h2 : plus1 Py.isSpace (sp a2 ++
      (d ++ (sp a3 ++ (ou u ++ ('i' :: 'B' :: '/' :: 's' :: rest))))) =
      some (sp a2, d ++ (sp a3 ++ (ou u ++ ('i' :: 'B' :: '/' :: 's' :: rest)))) :=
    plus1_exact _ _ _ (sp_ne_nil a2 ha2) (sp_all _ (by decide) a2)
      (headNot_digits _ (fun c hc => (digit_facts c hc).2.2.1) d hd _)
  rw [inSec, hlit]
  dsimp only [Option.some_bind]
  rw [h1]
  dsimp only [Option.some_bind]
  rw [show litCI ['@'] ('@' :: (sp a2 ++
      (d ++ (sp a3 ++ (ou u ++ ('i' :: 'B' :: '/' :: 's' :: rest)))))) =
      some (sp a2 ++ (d ++ (sp a3 ++ (ou u ++ ('i' :: 'B' :: '/' :: 's' :: rest)))))
    from by simp [litCI]]
  dsimp only [Option.some_bind]
  rw [h2]
  dsimp only [Option.some_bind]
  exact rateUnit_exact d a3 u rest hd ha3 hu

theorem outSec_exact (a1 a2 a3 : ℕ) (d : List Char) (u : Option Char)
    (rest : List Char) (ha1 : 1 ≤ a1) (ha2 : 1 ≤ a2) (ha3 : 1 ≤ a3)
    (hd : allDigits d) (hu : unitOk u) :
    outSec ('o' :: 'u' :: 't' :: (sp a1 ++ ('@' :: (sp a2 ++
        (d ++ (sp a3 ++ (ou u ++ ('i' :: 'B' :: '/' :: 's' :: rest)))))))) =
      some ((d, u), rest) := by
  have hlit : litCI ['o', 'u', 't'] ('o' :: 'u' :: 't' :: (sp a1 ++ ('@' :: (sp a2 ++
      (d ++ (sp a3 ++ (ou u ++ ('i' :: 'B' :: '/' :: 's' :: rest)))))))) =
      some (sp a1 ++ ('@' :: (sp a2 ++
        (d ++ (sp a3 ++ (ou u ++ ('i' :: 'B' :: '/' :: 's' :: rest))))))) := by
    simp [litCI]
  have h1 : plus1 Py.isSpace (sp a1 ++ ('@' :: (sp a2 ++
      (d ++ (sp a3 ++ (ou u ++ ('i' :: 'B' :: '/' :: 's' :: rest))))))) =
      some (sp a1, '@' :: (sp a2 ++
        (d ++ (sp a3 ++ (ou u ++ ('i' :: 'B' :: '/' :: 's' :: rest)))))) :=
    plus1_exact _ _ _ (sp_ne_nil a1 ha1) (sp_all _ (by decide) a1) (show Py.isSpace '@' = false by decide)
  have h2 : plus1 Py.isSpace (sp a2 ++
      (d ++ (sp a3 ++ (ou u ++ ('i' :: 'B' :: '/' :: 's' :: rest))))) =
      some (sp a2, d ++ (sp a3 ++ (ou u ++ ('i' :: 'B' :: '/' :: 's' :: rest)))) :=
    plus1_exact _ _ _ (sp_ne_nil a2 ha2) (sp_all _ (by decide) a2)
      (headNot_digits _ (fun c hc => (digit_facts c hc).2.2.1) d hd _)
  rw [outSec, hlit]
  dsimp only [Option.some_bind]
  rw [h1]
  dsimp only [Option.some_bind]
  rw [show litCI ['@'] ('@' :: (sp a2 ++
      (d ++ (sp a3 ++ (ou u ++ ('i' :: 'B' :: '/' :: 's' :: rest)))))) =
      some (sp a2 ++ (d ++ (sp a3 ++ (ou u ++ ('i' :: 'B' :: '/' :: 's' :: rest)))))
    from by simp [litCI]]
  dsimp only [Option.some_bind]
  rw [h2]
  dsimp only [Option.some_bind]
  exact rateUnit_exact d a3 u rest hd ha3 hu

theorem totalSec_exact (d : List Char) (a7 : ℕ) (u : Option Char) (a8 : ℕ)
    (rest : List Char) (hd : allDigits d) (ha7 : 1 ≤ a7) (ha8 : 1 ≤ a8)
    (hu : unitOk u) :
    totalSec (d ++ (sp a7 ++ (ou u ++ ('i' :: 'B' :: (sp a8 ++
        ('t' :: 'o' :: 't' :: 'a' :: 'l' :: rest)))))) = some ((d, u), rest) := by
  have h1 : plus1 isDigitDot (d ++ (sp a7 ++ (ou u ++ ('i' :: 'B' :: (sp a8 ++
      ('t' :: 'o' :: 't' :: 'a' :: 'l' :: rest)))))) =
      some (d, sp a7 ++ (ou u ++ ('i' :: 'B' :: (sp a8 ++
        ('t' :: 'o' :: 't' :: 'a' :: 'l' :: rest))))) :=
    plus1_exact _ _ _ hd.1 (fun c hc => (digit_facts c (hd.2 c hc)).2.1)
      (headNot_sp _ (by decide) a7 ha7 _)
  have h2 : plus1 Py.isSpace (sp a7 ++ (ou u ++ ('i' :: 'B' :: (sp a8 ++
      ('t' :: 'o' :: 't' :: 'a' :: 'l' :: rest))))) =
      some (sp a7, ou u ++ ('i' :: 'B' :: (sp a8 ++
        ('t' :: 'o' :: 't' :: 'a' :: 'l' :: rest)))) :=
    plus1_exact _ _ _ (sp_ne_nil a7 ha7) (sp_all _ (by decide) a7)
      (headNot_ou_cons _ u hu (fun c hc => (unit_facts c hc).2.1) 'i' (by decide) _)
  have h3 : plus1 Py.isSpace (sp a8 ++ ('t' :: 'o' :: 't' :: 'a' :: 'l' :: rest)) =
      some (sp a8, 't' :: 'o' :: 't' :: 'a' :: 'l' :: rest) :=
    plus1_exact _ _ _ (sp_ne_nil a8 ha8) (sp_all _ (by decide) a8) (show Py.isSpace 't' = false by decide)
  rw [totalSec, h1]
  dsimp only [Option.some_bind]
  rw [h2]
  dsimp only [Option.some_bind]
  rw [optCls_ou u hu]
  dsimp only
  rw [show litCI ['i', 'b'] ('i' :: 'B' :: (sp a8 ++
      ('t' :: 'o' :: 't' :: 'a' :: 'l' :: rest))) =
      some (sp a8 ++ ('t' :: 'o' :: 't' :: 'a' :: 'l' :: rest))
    from by simp [litCI]]
  dsimp only [Option.some_bind]
  rw [h3]
  dsimp only [Option.some_bind]
  simp [litCI]

theorem bufferSec_exact (a9 : ℕ) (d4 : List Char) (rest : List Char)
    (ha9 : 1 ≤ a9) (hd4 : allDigits d4) :
    bufferSec ('b' :: 'u' :: 'f' :: 'f' :: 'e' :: 'r' :: (sp a9 ++
        (d4 ++ ('%' :: rest)))) = some d4 := by
  have h1 : plus1 Py.isSpace (sp a9 ++ (d4 ++ ('%' :: rest))) =
      some (sp a9, d4 ++ ('%' :: rest)) :=
    plus1_exact _ _ _ (sp_ne_nil a9 ha9) (sp_all _ (by decide) a9)
      (headNot_digits _ (fun c hc => (digit_facts c hc).2.2.1) d4 hd4 _)
  have h2 : plus1 Char.isDigit (d4 ++ ('%' :: rest)) = some (d4, '%' :: rest) :=
    plus1_exact _ _ _ hd4.1 (fun c hc => (digit_facts c (hd4.2 c hc)).1) (show Char.isDigit '%' = false by decide)
  rw [bufferSec]
  rw [show litCI ['b', 'u', 'f', 'f', 'e', 'r']
      ('b' :: 'u' :: 'f' :: 'f' :: 'e' :: 'r' :: (sp a9 ++ (d4 ++ ('%' :: rest)))) =
      some (sp a9 ++ (d4 ++ ('%' :: rest))) from by simp [litCI]]
  dsimp only [Option.some_bind]
  rw [h1]
  dsimp only [Option.some_bind]
  rw [h2]
  dsimp only [Option.some_bind]
  simp [litCI]

end Copyem.Logger

namespace Copyem.Logger

theorem litCI_two_ne (p1 p2 : Char) (pr : List Char) (c1 c2 : Char)
    (r : List Char) (h : c1.toLower = p1.toLower) (h2 : c2.toLower ≠ p2.toLower) :
    litCI (p1 :: p2 :: pr) (c1 :: c2 :: r) = none := by
  simp [litCI, h, h2]

theorem noLitCI_cons_ne (pc : Char) (pr : List Char) (c : Char) (s : List Char)
    (h : c.toLower ≠ pc.toLower) (hs : noLitCI (pc :: pr) s) :
    noLitCI (pc :: pr) (c :: s) :=
  noLitCI_cons (pc :: pr) c s (litCI_head_ne pc pr c s h) hs

theorem ou_chars (u : Option Char) (hu : unitOk u) : ∀ c ∈ ou u, c ∈ unitChars := by
  intro c hc
  cases u with
  | none => simp [ou] at hc
  | some a =>
    simp [ou] at hc
    rw [hc]
    exact hu a rfl

theorem noLitCI_sp (pc : Char) (pr : List Char) (hpc : (' ').toLower ≠ pc.toLower)
    (n : ℕ) (s : List Char) (hs : noLitCI (pc :: pr) s) :
    noLitCI (pc :: pr) (sp n ++ s) :=
  noLitCI_append pc pr (sp n) s
    (fun c hc => by rw [List.eq_of_mem_replicate hc]; exact hpc) hs

theorem noLitCI_digits (pc : Char) (pr : List Char)
    (hpc : ∀ c ∈ digitChars, c.toLower ≠ pc.toLower) (d : List Char)
    (hd : ∀ c ∈ d, c ∈ digitChars) (s : List Char) (hs : noLitCI (pc :: pr) s) :
    noLitCI (pc :: pr) (d ++ s) :=
  noLitCI_append pc pr d s (fun c hc => hpc c (hd c hc)) hs

theorem noLitCI_ou (pc : Char) (pr : List Char)
    (hpc : ∀ c ∈ unitChars, c.toLower ≠ pc.toLower) (u : Option Char)
    (hu : unitOk u) (s : List Char) (hs : noLitCI (pc :: pr) s) :
    noLitCI (pc :: pr) (ou u ++ s) :=
  noLitCI_append pc pr (ou u) s (fun c hc => hpc c (ou_chars u hu c hc)) hs

theorem noBuf_tail (a9 : ℕ) (d4 : List Char) (hd4 : allDigits d4) :
    noLitCI ['b', 'u', 'f', 'f', 'e', 'r'] ('u' :: 'f' :: 'f' :: 'e' :: 'r' ::
      (sp a9 ++ (d4 ++ ('%' :: ' ' :: 'f' :: 'u' :: 'l' :: 'l' :: [])))) := by
  apply noLitCI_cons_ne _ _ _ _ (by decide)
  apply noLitCI_cons_ne _ _ _ _ (by decide)
  apply noLitCI_cons_ne _ _ _ _ (by decide)
  apply noLitCI_cons_ne _ _ _ _ (by decide)
  apply noLitCI_cons_ne _ _ _ _ (by decide)
  apply noLitCI_sp _ _ (by decide)
  apply noLitCI_digits _ _ (by decide) _ hd4.2
  apply noLitCI_cons_ne _ _ _ _ (by decide)
  apply noLitCI_cons_ne _ _ _ _ (by decide)
  apply noLitCI_cons_ne _ _ _ _ (by decide)
  apply noLitCI_cons_ne _ _ _ _ (by decide)
  apply noLitCI_cons_ne _ _ _ _ (by decide)
  apply noLitCI_cons_ne _ _ _ _ (by decide)
  exact noLitCI_nil _ _

theorem noOut_tail (a4 a5 a6 a7 a8 a9 : ℕ) (d2 d3 d4 : List Char)
    (u2 u3 : Option Char) (hd2 : allDigits d2) (hd3 : allDigits d3)
    (hd4 : allDigits d4) (hu2 : unitOk u2) (hu3 : unitOk u3) :
    noLitCI ['o', 'u', 't'] ('u' :: 't' :: (sp a4 ++ ('@' :: (sp a5 ++ (d2 ++
      (sp a6 ++ (ou u2 ++ ('i' :: 'B' :: '/' :: 's' :: ',' :: ' ' :: (d3 ++
      (sp a7 ++ (ou u3 ++ ('i' :: 'B' :: (sp a8 ++ ('t' :: 'o' :: 't' :: 'a' ::
      'l' :: ',' :: ' ' :: ('b' :: 'u' :: 'f' :: 'f' :: 'e' :: 'r' ::
      (sp a9 ++ (d4 ++ ('%' :: ' ' :: 'f' :: 'u' :: 'l' :: 'l' ::
      [])))))))))))))))))) := by
  apply noLitCI_cons_ne _ _ _ _ (by decide)
  apply noLitCI_cons_ne _ _ _ _ (by decide)
  apply noLitCI_sp _ _ (by decide)
  apply noLitCI_cons_ne _ _ _ _ (by decide)
  apply noLitCI_sp _ _ (by decide)
  apply noLitCI_digits _ _ (by decide) _ hd2.2
  apply noLitCI_sp _ _ (by decide)
  apply noLitCI_ou _ _ (by decide) _ hu2
  apply noLitCI_cons_ne _ _ _ _ (by decide)
  apply noLitCI_cons_ne _ _ _ _ (by decide)
  apply noLitCI_cons_ne _ _ _ _ (by decide)
  apply noLitCI_cons_ne _ _ _ _ (by decide)
  apply noLitCI_cons_ne _ _ _ _ (by decide)
  apply noLitCI_cons_ne _ _ _ _ (by decide)
  apply noLitCI_digits _ _ (by decide) _ hd3.2
  apply noLitCI_sp _ _ (by decide)
  apply noLitCI_ou _ _ (by decide) _ hu3
  apply noLitCI_cons_ne _ _ _ _ (by decide)
  apply noLitCI_cons_ne _ _ _ _ (by decide)
  apply noLitCI_sp _ _ (by decide)
  apply noLitCI_cons_ne _ _ _ _ (by decide)
  apply noLitCI_cons _ _ _ (litCI_two_ne 'o' 'u' ['t'] 'o' 't' _ (by decide) (by decide))
  apply noLitCI_cons_ne _ _ _ _ (by decide)
  apply noLitCI_cons_ne _ _ _ _ (by decide)
  apply noLitCI_cons_ne _ _ _ _ (by decide)
  apply noLitCI_cons_ne _ _ _ _ (by decide)
  apply noLitCI_cons_ne _ _ _ _ (by decide)
  apply noLitCI_cons_ne _ _ _ _ (by decide)
  apply noLitCI_cons_ne _ _ _ _ (by decide)
  apply noLitCI_cons_ne _ _ _ _ (by decide)
  apply noLitCI_cons_ne _ _ _ _ (by decide)
  apply noLitCI_cons_ne _ _ _ _ (by decide)
  apply noLitCI_cons_ne _ _ _ _ (by decide)
  apply noLitCI_sp _ _ (by decide)
  apply noLitCI_digits _ _ (by decide) _ hd4.2
  apply noLitCI_cons_ne _ _ _ _ (by decide)
  apply noLitCI_cons_ne _ _ _ _ (by decide)
  apply noLitCI_cons_ne _ _ _ _ (by decide)
  apply noLitCI_cons_ne _ _ _ _ (by decide)
  apply noLitCI_cons_ne _ _ _ _ (by decide)
  apply noLitCI_cons_ne _ _ _ _ (by decide)
  exact noLitCI_nil _ _

end Copyem.Logger

namespace Copyem.Logger

/-- The family of mbuffer status lines of spec section 4.3, with variable
run lengths of spaces (`a1`–`a9`), integer numeric fields (`d1`–`d4`) and
optional unit letters (`u1`–`u3`); the `i` infix before `B` is part of the
format. -/
def mkStatusLine (a1 a2 a3 a4 a5 a6 a7 a8 a9 : ℕ) (d1 d2 d3 d4 : List Char)
    (u1 u2 u3 : Option Char) : List Char :=
  'i' :: 'n' :: (sp a1 ++ ('@' :: (sp a2 ++ (d1 ++ (sp a3 ++ (ou u1 ++
    ('i' :: 'B' :: '/' :: 's' :: ',' :: ' ' ::
    ('o' :: 'u' :: 't' :: (sp a4 ++ ('@' :: (sp a5 ++ (d2 ++ (sp a6 ++ (ou u2 ++
    ('i' :: 'B' :: '/' :: 's' :: ',' :: ' ' :: (d3 ++ (sp a7 ++ (ou u3 ++
    ('i' :: 'B' :: (sp a8 ++ ('t' :: 'o' :: 't' :: 'a' :: 'l' :: ',' :: ' ' ::
    ('b' :: 'u' :: 'f' :: 'f' :: 'e' :: 'r' :: (sp a9 ++ (d4 ++
    ('%' :: ' ' :: 'f' :: 'u' :: 'l' :: 'l' :: [])))))))))))))))))))))))))

theorem bufSearch (a9 : ℕ) (d4 : List Char) (ha9 : 1 ≤ a9)
    (hd4 : allDigits d4) (c : (List Char × Option Char) ×
      ((List Char × Option Char) × (List Char × Option Char))) :
    scanGreedy (bufCont c) (',' :: ' ' :: ('b' :: 'u' :: 'f' :: 'f' :: 'e' ::
        'r' :: (sp a9 ++ (d4 ++ ('%' :: ' ' :: 'f' :: 'u' :: 'l' :: 'l' :: []))))) =
      some ⟨c.1.1, c.1.2, c.2.1.1, c.2.1.2, c.2.2.1, c.2.2.2, d4⟩ := by
  have hnone : scanGreedy (bufCont c) ('u' :: 'f' :: 'f' :: 'e' :: 'r' ::
      (sp a9 ++ (d4 ++ ('%' :: ' ' :: 'f' :: 'u' :: 'l' :: 'l' :: [])))) = none :=
    scanGreedy_none _ _ (fun t ht => bufCont_of_litCI c t (noBuf_tail a9 d4 hd4 t ht))
  have hval : bufCont c ('b' :: 'u' :: 'f' :: 'f' :: 'e' :: 'r' ::
      (sp a9 ++ (d4 ++ ('%' :: ' ' :: 'f' :: 'u' :: 'l' :: 'l' :: [])))) =
      some ⟨c.1.1, c.1.2, c.2.1.1, c.2.1.2, c.2.2.1, c.2.2.2, d4⟩ := by
    simp only [bufCont]
    rw [bufferSec_exact a9 d4 (' ' :: 'f' :: 'u' :: 'l' :: 'l' :: []) ha9 hd4]
    rfl
  have hfall := scanGreedy_cons_fallback (bufCont c) 'b'
    ('u' :: 'f' :: 'f' :: 'e' :: 'r' ::
      (sp a9 ++ (d4 ++ ('%' :: ' ' :: 'f' :: 'u' :: 'l' :: 'l' :: []))))
    (by decide) hnone
  exact scanGreedy_cons_some _ ',' _ _ (by decide)
    (scanGreedy_cons_some _ ' ' _ _ (by decide) (hfall.trans hval))

theorem totSearch (a7 a8 a9 : ℕ) (d3 d4 : List Char) (u3 : Option Char)
    (ha7 : 1 ≤ a7) (ha8 : 1 ≤ a8) (ha9 : 1 ≤ a9) (hd3 : allDigits d3)
    (hd4 : allDigits d4) (hu3 : unitOk u3)
    (b : (List Char × Option Char) × (List Char × Option Char)) :
    scanLazy (totCont b) (',' :: ' ' :: (d3 ++ (sp a7 ++ (ou u3 ++
        ('i' :: 'B' :: (sp a8 ++ ('t' :: 'o' :: 't' :: 'a' :: 'l' :: ',' :: ' ' ::
        ('b' :: 'u' :: 'f' :: 'f' :: 'e' :: 'r' :: (sp a9 ++ (d4 ++
        ('%' :: ' ' :: 'f' :: 'u' :: 'l' :: 'l' :: []))))))))))) =
      some ⟨b.1.1, b.1.2, b.2.1, b.2.2, d3, u3, d4⟩ := by
  rw [scanLazy_cons_step _ ',' _ (by decide) (totCont_head b ',' _ (by decide))]
  rw [scanLazy_cons_step _ ' ' _ (by decide) (totCont_head b ' ' _ (by decide))]
  apply scanLazy_found
  simp only [totCont]
  rw [totalSec_exact d3 a7 u3 a8
    (',' :: ' ' :: ('b' :: 'u' :: 'f' :: 'f' :: 'e' :: 'r' :: (sp a9 ++ (d4 ++
      ('%' :: ' ' :: 'f' :: 'u' :: 'l' :: 'l' :: []))))) hd3 ha7 ha8 hu3]
  dsimp only [Option.some_bind]
  exact bufSearch a9 d4 ha9 hd4 (b.1, b.2, (d3, u3))

theorem outSearch (a4 a5 a6 a7 a8 a9 : ℕ) (d2 d3 d4 : List Char)
    (u2 u3 : Option Char) (ha4 : 1 ≤ a4) (ha5 : 1 ≤ a5) (ha6 : 1 ≤ a6)
    (ha7 : 1 ≤ a7) (ha8 : 1 ≤ a8) (ha9 : 1 ≤ a9) (hd2 : allDigits d2)
    (hd3 : allDigits d3) (hd4 : allDigits d4) (hu2 : unitOk u2)
    (hu3 : unitOk u3) (a : List Char × Option Char) :
    scanGreedy (outCont a) (',' :: ' ' :: ('o' :: 'u' :: 't' :: (sp a4 ++
        ('@' :: (sp a5 ++ (d2 ++ (sp a6 ++ (ou u2 ++
        ('i' :: 'B' :: '/' :: 's' :: ',' :: ' ' :: (d3 ++ (sp a7 ++ (ou u3 ++
        ('i' :: 'B' :: (sp a8 ++ ('t' :: 'o' :: 't' :: 'a' :: 'l' :: ',' :: ' ' ::
        ('b' :: 'u' :: 'f' :: 'f' :: 'e' :: 'r' :: (sp a9 ++ (d4 ++
        ('%' :: ' ' :: 'f' :: 'u' :: 'l' :: 'l' ::
        []))))))))))))))))))) =
      some ⟨a.1, a.2, d2, u2, d3, u3, d4⟩ := by
  have hnone : scanGreedy (outCont a) ('u' :: 't' :: (sp a4 ++
      ('@' :: (sp a5 ++ (d2 ++ (sp a6 ++ (ou u2 ++
      ('i' :: 'B' :: '/' :: 's' :: ',' :: ' ' :: (d3 ++ (sp a7 ++ (ou u3 ++
      ('i' :: 'B' :: (sp a8 ++ ('t' :: 'o' :: 't' :: 'a' :: 'l' :: ',' :: ' ' ::
      ('b' :: 'u' :: 'f' :: 'f' :: 'e' :: 'r' :: (sp a9 ++ (d4 ++
      ('%' :: ' ' :: 'f' :: 'u' :: 'l' :: 'l' :: [])))))))))))))))))) = none :=
    scanGreedy_none _ _ (fun t ht => outCont_of_litCI a t
      (noOut_tail a4 a5 a6 a7 a8 a9 d2 d3 d4 u2 u3 hd2 hd3 hd4 hu2 hu3 t ht))
  have hval : outCont a ('o' :: 'u' :: 't' :: (sp a4 ++
      ('@' :: (sp a5 ++ (d2 ++ (sp a6 ++ (ou u2 ++
      ('i' :: 'B' :: '/' :: 's' :: ',' :: ' ' :: (d3 ++ (sp a7 ++ (ou u3 ++
      ('i' :: 'B' :: (sp a8 ++ ('t' :: 'o' :: 't' :: 'a' :: 'l' :: ',' :: ' ' ::
      ('b' :: 'u' :: 'f' :: 'f' :: 'e' :: 'r' :: (sp a9 ++ (d4 ++
      ('%' :: ' ' :: 'f' :: 'u' :: 'l' :: 'l' :: [])))))))))))))))))) =
      some ⟨a.1, a.2, d2, u2, d3, u3, d4⟩ := by
    simp only [outCont]
    rw [outSec_exact a4 a5 a6 d2 u2
      (',' :: ' ' :: (d3 ++ (sp a7 ++ (ou u3 ++
        ('i' :: 'B' :: (sp a8 ++ ('t' :: 'o' :: 't' :: 'a' :: 'l' :: ',' :: ' ' ::
        ('b' :: 'u' :: 'f' :: 'f' :: 'e' :: 'r' :: (sp a9 ++ (d4 ++
        ('%' :: ' ' :: 'f' :: 'u' :: 'l' :: 'l' :: []))))))))))) ha4 ha5 ha6 hd2 hu2]
    dsimp only [Option.some_bind]
    exact totSearch a7 a8 a9 d3 d4 u3 ha7 ha8 ha9 hd3 hd4 hu3 (a, (d2, u2))
  have hfall := scanGreedy_cons_fallback (outCont a) 'o' _ (by decide) hnone
  exact scanGreedy_cons_some _ ',' _ _ (by decide)
    (scanGreedy_cons_some _ ' ' _ _ (by decide) (hfall.trans hval))

theorem statusSearch_mk (a1 a2 a3 a4 a5 a6 a7 a8 a9 : ℕ)
    (d1 d2 d3 d4 : List Char) (u1 u2 u3 : Option Char)
    (ha1 : 1 ≤ a1) (ha2 : 1 ≤ a2) (ha3 : 1 ≤ a3) (ha4 : 1 ≤ a4) (ha5 : 1 ≤ a5)
    (ha6 : 1 ≤ a6) (ha7 : 1 ≤ a7) (ha8 : 1 ≤ a8) (ha9 : 1 ≤ a9)
    (hd1 : allDigits d1) (hd2 : allDigits d2) (hd3 : allDigits d3)
    (hd4 : allDigits d4) (hu1 : unitOk u1) (hu2 : unitOk u2) (hu3 : unitOk u3) :
    statusSearch (mkStatusLine a1 a2 a3 a4 a5 a6 a7 a8 a9 d1 d2 d3 d4 u1 u2 u3) =
      some ⟨d1, u1, d2, u2, d3, u3, d4⟩ := by
  rw [statusSearch]
  apply scanSearch_found
  rw [mkStatusLine]
  simp only [inCont]
  rw [inSec_exact a1 a2 a3 d1 u1
    (',' :: ' ' :: ('o' :: 'u' :: 't' :: (sp a4 ++ ('@' :: (sp a5 ++ (d2 ++
      (sp a6 ++ (ou u2 ++ ('i' :: 'B' :: '/' :: 's' :: ',' :: ' ' :: (d3 ++
      (sp a7 ++ (ou u3 ++ ('i' :: 'B' :: (sp a8 ++ ('t' :: 'o' :: 't' :: 'a' ::
      'l' :: ',' :: ' ' :: ('b' :: 'u' :: 'f' :: 'f' :: 'e' :: 'r' ::
      (sp a9 ++ (d4 ++ ('%' :: ' ' :: 'f' :: 'u' :: 'l' :: 'l' ::
      []))))))))))))))))))) ha1 ha2 ha3 hd1 hu1]
  dsimp only [Option.some_bind]
  exact outSearch a4 a5 a6 a7 a8 a9 d2 d3 d4 u2 u3 ha4 ha5 ha6 ha7 ha8 ha9
    hd2 hd3 hd4 hu2 hu3 (d1, u1)

end Copyem.Logger

namespace Copyem.Logger

theorem noSpace_strip (d : List Char) (h : ∀ c ∈ d, Py.isSpace c = false) :
    ((d.dropWhile Py.isSpace).reverse.dropWhile Py.isSpace).reverse = d := by
  have h1 : d.dropWhile Py.isSpace = d := by
    cases d with
    | nil => rfl
    | cons c cs =>
      rw [List.dropWhile_cons]
      simp [h c (List.mem_cons_self c cs)]
  rw [h1]
  have h2 : d.reverse.dropWhile Py.isSpace = d.reverse := by
    cases hr : d.reverse with
    | nil => rfl
    | cons c cs =>
      have hc : c ∈ d := by
        have : c ∈ d.reverse := by
          rw [hr]
          exact List.mem_cons_self c cs
        simpa using this
      rw [List.dropWhile_cons]
      simp [h c hc]
  rw [h2, List.reverse_reverse]

theorem pyFloat_digits (d : List Char) (hd : allDigits d) :
    Py.pyFloat d = some ((Py.decimalVal d : ℚ)) := by
  obtain ⟨hne, hdc⟩ := hd
  have hstrip : ((d.dropWhile Py.isSpace).reverse.dropWhile Py.isSpace).reverse = d :=
    noSpace_strip d (fun c hc => (digit_facts c (hdc c hc)).2.2.1)
  have hsign : Py.signSplit d = (1, d) := by
    cases d with
    | nil => exact absurd rfl hne
    | cons c cs =>
      have hmem : c ∈ digitChars := hdc c (List.mem_cons_self c cs)
      simp only [digitChars, List.mem_cons, List.not_mem_nil, or_false] at hmem
      rcases hmem with rfl | rfl | rfl | rfl | rfl | rfl | rfl | rfl | rfl | rfl <;> rfl
  have htws : Py.takeWhileSplit Char.isDigit d = (d, []) := by
    simpa using tws_exact Char.isDigit d []
      (fun c hc => (digit_facts c (hdc c hc)).1) trivial
  have hie : d.isEmpty = false := by
    simp [List.isEmpty_iff, hne]
  simp only [Py.pyFloat, hstrip, hsign, htws]
  simp [hie, Py.expPart]

end Copyem.Logger

namespace Copyem.Logger

theorem parse_of_search (text : String) (caps : RawCaps) (q1 q2 q3 : ℚ)
    (hs : statusSearch text.data = some caps)
    (h1 : Py.pyFloat caps.in_rate = some q1)
    (h2 : Py.pyFloat caps.out_rate = some q2)
    (h3 : Py.pyFloat caps.total_val = some q3) :
    parse_mbuffer_status text = Except.ok (some ⟨q1 * unitScale caps.in_unit,
      q2 * unitScale caps.out_unit, q3 * unitScale caps.total_unit,
      Py.decimalVal caps.buffer_pct⟩) := by
  unfold parse_mbuffer_status
  rw [hs]
  dsimp only
  rw [h1, h2, h3]

end Copyem.Logger

namespace Copyem.Logger

/-- C7 (amended).  For every status line of the family
`in @ <d1><u1>iB/s, out @ <d2><u2>iB/s, <d3><u3>iB total, buffer <d4>% full`
— with arbitrary positive runs of spaces before the numbers, arbitrary
non-empty decimal digit strings `d1`–`d4`, and each unit `u1`–`u3` absent or
one of `k/K/m/M/g/G` — `parse_mbuffer_status` returns metrics (not `None`)
with each value scaled by the unit's multiplier (1, 1024, 1024², 1024³).
The original claim's "with or without the `i` infix" is refuted by
`claim_C7_counterexample`: the pattern requires the `i`. -/
theorem claim_C7 (a1 a2 a3 a4 a5 a6 a7 a8 a9 : ℕ)
    (d1 d2 d3 d4 : List Char) (u1 u2 u3 : Option Char)
    (ha1 : 1 ≤ a1) (ha2 : 1 ≤ a2) (ha3 : 1 ≤ a3) (ha4 : 1 ≤ a4) (ha5 : 1 ≤ a5)
    (ha6 : 1 ≤ a6) (ha7 : 1 ≤ a7) (ha8 : 1 ≤ a8) (ha9 : 1 ≤ a9)
    (hd1 : allDigits d1) (hd2 : allDigits d2) (hd3 : allDigits d3)
    (hd4 : allDigits d4) (hu1 : unitOk u1) (hu2 : unitOk u2) (hu3 : unitOk u3) :
    parse_mbuffer_status (String.mk
        (mkStatusLine a1 a2 a3 a4 a5 a6 a7 a8 a9 d1 d2 d3 d4 u1 u2 u3)) =
      Except.ok (some ⟨(Py.decimalVal d1 : ℚ) * unitScale u1,
        (Py.decimalVal d2 : ℚ) * unitScale u2,
        (Py.decimalVal d3 : ℚ) * unitScale u3,
        Py.decimalVal d4⟩) := by
  exact parse_of_search _ ⟨d1, u1, d2, u2, d3, u3, d4⟩ _ _ _
    (statusSearch_mk a1 a2 a3 a4 a5 a6 a7 a8 a9 d1 d2 d3 d4 u1 u2 u3
      ha1 ha2 ha3 ha4 ha5 ha6 ha7 ha8 ha9 hd1 hd2 hd3 hd4 hu1 hu2 hu3)
    (pyFloat_digits d1 hd1) (pyFloat_digits d2 hd2) (pyFloat_digits d3 hd3)

/-- Witness for C7: the family theorem applied at the concrete line
`in @ 14MiB/s, out @ 24MiB/s, 656MiB total, buffer 99% full` (all space
runs of length 1). -/
theorem claim_C7_witness :
    parse_mbuffer_status (String.mk (mkStatusLine 1 1 1 1 1 1 1 1 1
        ['1', '4'] ['2', '4'] ['6', '5', '6'] ['9', '9']
        (some 'M') (some 'M') (some 'M'))) =
      Except.ok (some ⟨14 * 1024 ^ 2, 24 * 1024 ^ 2, 656 * 1024 ^ 2, 99⟩) := by
  have hu : unitOk (some 'M') := by
    intro c hc
    injection hc with h
    subst h
    decide
  have h := claim_C7 1 1 1 1 1 1 1 1 1 ['1', '4'] ['2', '4'] ['6', '5', '6']
    ['9', '9'] (some 'M') (some 'M') (some 'M') (by decide) (by decide)
    (by decide) (by decide) (by decide) (by decide) (by decide) (by decide)
    (by decide) ⟨by decide, by decide⟩ ⟨by decide, by decide⟩
    ⟨by decide, by decide⟩ ⟨by decide, by decide⟩ hu hu hu
  have e1 : Py.decimalVal ['1', '4'] = 14 := rfl
  have e2 : Py.decimalVal ['2', '4'] = 24 := rfl
  have e3 : Py.decimalVal ['6', '5', '6'] = 656 := rfl
  have e4 : Py.decimalVal ['9', '9'] = 99 := rfl
  have eM : unitScale (some 'M') = 1024 ^ 2 := rfl
  rw [h, e1, e2, e3, e4, eM]
  norm_num

end Copyem.Logger
